import Mathlib

/-!
# Verification of the yxf form-conversion library

A shallow embedding, in Lean 4, of the core of the `yxf` package
(`src/yxf/excel.py`, `src/yxf/yaml.py`, `src/yxf/markdown.py`,
`src/yxf/xlsform.py`, together with the parallel pipeline in
`src/yxf/__main__.py`), followed by theorems settling the specification
claims about it.

Modelling conventions:
* A spreadsheet cell as delivered by `openpyxl` is `Option String`
  (`none` models Python `None`; all claims under study involve only
  text cells, which `stringify_value` passes through unchanged).
* Python `OrderedDict` rows become insertion-ordered association lists
  `List (String × String)`; `dict` assignment is `odInsert`, which
  overwrites in place, keeping the original position of an existing key.
* Python exceptions become `Except String`; the message strings follow
  the source.
* The external `strictyaml` library is modelled at the boundary
  described by the specification (an order-preserving serializer for
  nested lists/mappings of strings) with the documented limitation,
  recorded in the repository itself, that it cannot represent empty
  collections.
-/

namespace Yxf

/-- A cell value as seen after `openpyxl` reading: Python `None` or a string. -/
abbrev Cell := Option String

/-- A row: an insertion-ordered mapping from column name to cell text
(Python `collections.OrderedDict`). -/
abbrev Row := List (String × String)

/-- A sheet grid: list of rows of cells, the first row being the header row. -/
abbrev Grid := List (List Cell)

/-- A workbook: named grids, as `openpyxl` presents them. -/
abbrev Workbook := List (String × Grid)

/-- Ordered-dictionary assignment `m[k] = v`: if `k` is present, overwrite its
value in place (keeping its position); otherwise append the pair at the end.
This is Python `dict` assignment semantics. -/
def odInsert {α : Type} : List (String × α) → String → α → List (String × α)
  | [], k, v => [(k, v)]
  | (k', v') :: rest, k, v =>
    if k' = k then (k', v) :: rest else (k', v') :: odInsert rest k v

/-- Whether a cell survives the `if v is None or v == "": continue` test of
`row_to_dict` (`src/yxf/excel.py`, lines 40-42). -/
def cellPresent : Cell → Bool
  | none => false
  | some s => s ≠ ""

/-- The loop of `row_to_dict` over the zipped (header, value) pairs
(`src/yxf/excel.py`, lines 39-46). -/
def rowToDictAux : List (Option String × Cell) → Row → Except String Row
  | [], acc => .ok acc
  | (h, v) :: rest, acc =>
    match v with
    | none => rowToDictAux rest acc
    | some s =>
      if s = "" then rowToDictAux rest acc
      else
        match h with
        | none => .error ("Cell with no column header: " ++ s)
        | some hk => rowToDictAux rest (odInsert acc hk s)

/-- `row_to_dict(headers, values)` from `src/yxf/excel.py`, lines 19-46:
zip headers with values (Python `zip` truncates to the shorter list), skip
pairs whose value is `None` or `""`, raise `ValueError` when a surviving
value has header `None`, otherwise assign into an ordered dictionary. -/
def row_to_dict (headers : List (Option String)) (values : List Cell) :
    Except String Row :=
  rowToDictAux (headers.zip values) []

/-- `truncate_row` from `src/yxf/xlsform.py`, lines 41-50: remove trailing
`None` cells. -/
def truncate_row (row : List Cell) : List Cell :=
  (row.reverse.dropWhile (fun c => c = none)).reverse

/-- `stringify_value` from `src/yxf/xlsform.py`, lines 53-55:
`str(v) if v else ""`.  On the text cells modelled here this maps `None`
to `""` and keeps strings unchanged (the empty string is falsy in Python,
and `str` is the identity on strings). -/
def stringify_value : Cell → String
  | none => ""
  | some s => s

/-- `xlsform.headers(sheet)` from `src/yxf/xlsform.py`, lines 58-65: the
stringified, truncated first row; `[]` for a sheet with no rows at all. -/
def headersOfGrid : Grid → List String
  | [] => []
  | r :: _ => (truncate_row r).map stringify_value

/-- `excel._convert_sheet` from `src/yxf/excel.py`, lines 49-66.  The call
`next(rows_iter)` inside `xlsform.content_rows` raises `StopIteration` on a
sheet with no rows at all; on other sheets each content row is truncated,
stringified and converted with `row_to_dict`, and rows that came out as
empty dictionaries are dropped. -/
def convert_sheet (g : Grid) : Except String (List Row) :=
  match g with
  | [] => .error "StopIteration"
  | headerRow :: content => do
    let hs := (truncate_row headerRow).map stringify_value
    let dicts ← content.mapM (fun r =>
      row_to_dict (hs.map some)
        (((truncate_row r).map stringify_value).map some))
    .ok (dicts.filter (fun d => !d.isEmpty))

/-- The error text of `read_xlsform`'s comment-column position check
(`src/yxf/excel.py`, lines 182-184). -/
def commentMsg (sheetName : String) : String :=
  "The comment column must come first in sheet " ++ sheetName ++ "."

/-- The canonical in-memory form: the recognized sheets in dictionary
order, plus the `yxf` header metadata (which the Python code stores as the
last key `"yxf"` of the same dictionary, as produced by `read_xlsform`). -/
structure Form where
  sheets : List (String × List Row)
  headers : List (String × List String)
  deriving DecidableEq, Repr

/-- The sheet-scanning loop of `read_xlsform` over
`["survey", "choices", "settings"]` (`src/yxf/excel.py`, lines 176-184):
convert each sheet present in the workbook, record its headers, and raise
when the reserved `"#"` header is present but not first. -/
def readSheets : List String → Workbook →
    Except String (List (String × List Row) × List (String × List String))
  | [], _ => .ok ([], [])
  | s :: rest, wb =>
    match wb.lookup s with
    | none => readSheets rest wb
    | some g => do
      let rows ← convert_sheet g
      let hs := headersOfGrid g
      match hs with
      | [] =>
        let (ss, hh) ← readSheets rest wb
        .ok ((s, rows) :: ss, (s, hs) :: hh)
      | h0 :: _ =>
        if h0 ≠ "#" ∧ "#" ∈ hs then .error (commentMsg s)
        else do
          let (ss, hh) ← readSheets rest wb
          .ok ((s, rows) :: ss, (s, hs) :: hh)

/-- `read_xlsform` from `src/yxf/excel.py`, lines 159-190: scan the three
recognized sheets, then require a `survey` sheet, and return the form with
the `yxf` headers metadata attached last. -/
def read_xlsform (wb : Workbook) : Except String Form := do
  let (ss, hh) ← readSheets ["survey", "choices", "settings"] wb
  if (ss.lookup "survey").isNone then
    .error "An XLSForm must have a \"survey\" sheet."
  else
    .ok ⟨ss, hh⟩

/-- The provenance comment text built by `ensure_yxf_comment`
(`src/yxf/excel.py`, line 147). -/
def desiredComment (name fmt : String) : String :=
  "Converted by yxf, from " ++ name ++ ". Edit the " ++ fmt ++
  " file instead of the Excel file."

/-- Python `str.startswith`. -/
def pyStartsWith (s pre : String) : Bool :=
  pre.data.isPrefixOf s.data

/-- The insertion condition of `ensure_yxf_comment`
(`src/yxf/excel.py`, line 150): the first survey row lacks a `"#"` entry,
or its value does not start with `"Converted by yxf,"`. -/
def needsInsert (firstLine : Row) : Bool :=
  match firstLine.lookup "#" with
  | none => true
  | some c => !(pyStartsWith c "Converted by yxf,")

/-- `ensure_yxf_comment` from `src/yxf/excel.py`, lines 139-156.  Accessing
`form["survey"]` on a form without that key is a Python `KeyError` and
`form["survey"][0]` on an empty list an `IndexError`; both become
`Except.error` here.  If the first survey row lacks a `"#"` entry, or its
value does not start with `"Converted by yxf,"`, a fresh comment row is
inserted in front; otherwise the existing value is overwritten in place.
Finally `"#"` is put first in the survey header list if absent. -/
def ensure_yxf_comment (f : Form) (name fmt : String) : Except String Form :=
  let desired := desiredComment name fmt
  match f.sheets.lookup "survey" with
  | none => .error "KeyError: survey"
  | some rows =>
    match rows with
    | [] => .error "IndexError: list index out of range"
    | firstLine :: rest =>
      let newRows :=
        if needsInsert firstLine then ([("#", desired)] : Row) :: firstLine :: rest
        else odInsert firstLine "#" desired :: rest
      let f' : Form := { f with sheets := odInsert f.sheets "survey" newRows }
      match f'.headers.lookup "survey" with
      | none => .error "KeyError: survey"
      | some hs =>
        if "#" ∈ hs then .ok f'
        else .ok { f' with headers := odInsert f'.headers "survey" ("#" :: hs) }

/-- The placeholder loop of `xlsform_bytes_to_yaml_string` from
`src/yxf/__main__.py`, lines 326-333: for each recognized sheet whose row
list is empty, make sure `"#"` is first in that sheet's header list
(a `KeyError` if the sheet has no header entry at all) and append a
`{"#": "Empty <sheet> sheet"}` placeholder row, because the underlying
serializer cannot represent an empty list. -/
def addPlaceholders : List String → Form → Except String Form
  | [], f => .ok f
  | s :: rest, f =>
    match f.sheets.lookup s with
    | some [] =>
      let placeholder : List Row := [[("#", "Empty " ++ s ++ " sheet")]]
      if "#" ∈ (f.headers.lookup s).getD [] then
        addPlaceholders rest { f with sheets := odInsert f.sheets s placeholder }
      else
        match f.headers.lookup s with
        | none => .error ("KeyError: " ++ s)
        | some hs =>
          addPlaceholders rest
            { f with headers := odInsert f.headers s ("#" :: hs),
                     sheets := odInsert f.sheets s placeholder }
    | _ => addPlaceholders rest f

/-- The empty-sheet placeholder pass of `xlsform_bytes_to_yaml_string`
(`src/yxf/__main__.py`, lines 326-333), over the three recognized sheets. -/
def addEmptySheetPlaceholders (f : Form) : Except String Form :=
  addPlaceholders ["survey", "choices", "settings"] f

/-- A structured-text document value: nested lists and mappings of
strings, the data model shared by the form dictionaries and the
`strictyaml` documents that serialize them. -/
inductive YVal where
  | str : String → YVal
  | seq : List YVal → YVal
  | map : List (String × YVal) → YVal
  deriving Repr

mutual

/-- Whether a document value contains an empty list or an empty mapping
anywhere (the values the external serializer cannot represent). -/
def YVal.hasEmpty : YVal → Bool
  | .str _ => false
  | .seq xs => xs.isEmpty || hasEmptyList xs
  | .map kvs => kvs.isEmpty || hasEmptyPairs kvs

/-- `YVal.hasEmpty` over a list of values. -/
def hasEmptyList : List YVal → Bool
  | [] => false
  | x :: xs => x.hasEmpty || hasEmptyList xs

/-- `YVal.hasEmpty` over the values of a mapping. -/
def hasEmptyPairs : List (String × YVal) → Bool
  | [] => false
  | kv :: kvs => kv.2.hasEmpty || hasEmptyPairs kvs

end

/-- A row as a document mapping of scalars. -/
def rowToYVal (r : Row) : YVal :=
  .map (r.map (fun kv => (kv.1, .str kv.2)))

/-- A sheet as a document sequence of row mappings. -/
def sheetToYVal (rows : List Row) : YVal :=
  .seq (rows.map rowToYVal)

/-- A header list as a document sequence of scalars. -/
def headersToYVal (hs : List String) : YVal :=
  .seq (hs.map .str)

/-- The document value of a form, in the dictionary order the Python code
maintains: the sheets first, then the `"yxf"` metadata entry last. -/
def formToYVal (f : Form) : YVal :=
  .map ((f.sheets.map (fun p => (p.1, sheetToYVal p.2))) ++
    [("yxf", .map [("headers",
      .map (f.headers.map (fun p => (p.1, headersToYVal p.2))))])])

/-- `write_yaml` from `src/yxf/yaml.py`, lines 35-45:
`strictyaml.as_document(form).as_yaml()`.  The external serializer is
modelled at the boundary the specification fixes for it: it preserves
mapping key order and round-trips nested lists/mappings of strings, so the
produced text is modelled by its document value; it cannot represent empty
collections (recorded in the repository itself: `src/yxf/__main__.py`,
line 326, and `src/tests/test_conversions.py`), which is an error. -/
def write_yaml (f : Form) : Except String YVal :=
  let v := formToYVal f
  if v.hasEmpty then .error "strictyaml cannot serialize empty collections"
  else .ok v

/-- Decoding one key/value entry of a row mapping. -/
def decodeRowEntry : String × YVal → Except String (String × String)
  | (k, .str s) => .ok (k, s)
  | _ => .error "expected a scalar cell value"

/-- Decoding a row mapping. -/
def decodeRow : YVal → Except String Row
  | .map kvs => kvs.mapM decodeRowEntry
  | _ => .error "expected a row mapping"

/-- Decoding a sheet sequence. -/
def decodeSheet : YVal → Except String (List Row)
  | .seq xs => xs.mapM decodeRow
  | _ => .error "expected a sheet sequence"

/-- Decoding a header-list sequence. -/
def decodeHeaders : YVal → Except String (List String)
  | .seq xs => xs.mapM (fun v =>
      match v with
      | .str s => Except.ok s
      | _ => Except.error "expected a scalar header")
  | _ => .error "expected a header sequence"

/-- `read_yaml` from `src/yxf/yaml.py`, lines 11-32: parse the document
(modelled by its document value), require a `"yxf"` entry and a
`"survey"` entry, and return the form data.  The Python function returns
the raw nested dictionaries; rebuilding the typed `Form` here surfaces, as
errors, shape mismatches that Python would only hit later — such shapes
cannot arise on documents produced by `write_yaml`. -/
def read_yaml (v : YVal) : Except String Form :=
  match v with
  | .map entries =>
    if (entries.lookup "yxf").isNone then
      .error "YAML file must have a \"yxf\" entry."
    else if (entries.lookup "survey").isNone then
      .error "YAML file must have a \"survey\" entry."
    else do
      let sheets ← (entries.filter (fun p => p.1 ≠ "yxf")).mapM
        (fun p => do
          let rows ← decodeSheet p.2
          Except.ok (p.1, rows))
      match entries.lookup "yxf" with
      | some (.map yentries) =>
        match yentries.lookup "headers" with
        | some (.map hentries) => do
          let hh ← hentries.mapM (fun p => do
            let hs ← decodeHeaders p.2
            Except.ok (p.1, hs))
          Except.ok (⟨sheets, hh⟩ : Form)
        | _ => .error "yxf entry must contain a headers mapping"
      | _ => .error "yxf entry must be a mapping"
  | _ => .error "YAML document must be a mapping"

/-- `row.get(k)`: Python dictionary lookup returning `None` when absent. -/
def rowGet (r : Row) (k : String) : Option String :=
  r.lookup k

/-- The `ValueError` text of `_convert_to_sheet` (`src/yxf/excel.py`,
lines 100-103), naming the offending key, the row by its `name` value or
`"(unnamed)"`, and the sheet title. -/
def invalidKeyMsg (missingKey : String) (row : Row) (title : String) : String :=
  "Invalid key \"" ++ missingKey ++ "\" in row \"" ++
  ((row.lookup "name").getD "(unnamed)") ++
  "\". Add it to yxf.headers." ++ title ++ " in the YAML file."

/-- `next(k for k in row.keys() if k not in key_set)`: the first key of the
row that is not among the sheet's declared headers. -/
def firstInvalidKey (row : Row) (keys : List String) : Option String :=
  (row.find? (fun kv => !(keys.contains kv.1))).map (fun kv => kv.1)

/-- The cell writes of one data row (`src/yxf/excel.py`, lines 105-107):
for each declared key present in the row, a `(row, column, value)` write,
columns counted from 1. -/
def rowCells (r : Nat) (keys : List String) (row : Row) :
    List (Nat × Nat × String) :=
  keys.enum.filterMap (fun p => (row.lookup p.2).map (fun v => (r, p.1 + 1, v)))

/-- The header-row writes of `_convert_to_sheet` (`src/yxf/excel.py`,
lines 85-86): the declared keys written as row 1. -/
def headerCells (keys : List String) : List (Nat × Nat × String) :=
  keys.enum.map (fun p => ((1 : Nat), p.1 + 1, p.2))

/-- The data-row loop of `_convert_to_sheet` (`src/yxf/excel.py`,
lines 88-109), carrying `next_row` and `previous_list_name`: skip a row
before a `begin_group` row and whenever the `list_name` value changes,
fail on a row with an undeclared key, else write the row's cells. -/
def convertRows (title : String) (keys : List String) :
    Nat → Option String → List Row → Except String (List (Nat × Nat × String))
  | _, _, [] => .ok []
  | nextRow, prev, row :: rest =>
    let nextRow := if rowGet row "type" = some "begin_group" then nextRow + 1
      else nextRow
    let pr : Option String × Nat :=
      if rowGet row "list_name" ≠ prev then (rowGet row "list_name", nextRow + 1)
      else (prev, nextRow)
    match firstInvalidKey row keys with
    | some k => .error (invalidKeyMsg k row title)
    | none => do
      let rest' ← convertRows title keys (pr.2 + 1) pr.1 rest
      .ok (rowCells pr.2 keys row ++ rest')

/-- `_convert_to_sheet` from `src/yxf/excel.py`, lines 69-111, modelled as
the list of `(row, column, value)` cell writes it performs on the sheet:
the header row first, then the data rows starting at row 2, with
`previous_list_name` initialized to the first row's `list_name`
(`rows[0].get("list_name") if rows else None`). -/
def convert_to_sheet (title : String) (rows : List Row) (keys : List String) :
    Except String (List (Nat × Nat × String)) := do
  let cells ← convertRows title keys 2
    (rows.head?.bind (fun r => rowGet r "list_name")) rows
  .ok (headerCells keys ++ cells)

/-- `write_xlsform` from `src/yxf/excel.py`, lines 193-216, modelled as
the cell writes per sheet: every sheet of the form except the `yxf`
metadata is converted with its declared header list
(`form["yxf"]["headers"][sheet_name]`, a `KeyError` when absent). -/
def write_xlsform (f : Form) :
    Except String (List (String × List (Nat × Nat × String))) :=
  f.sheets.mapM (fun p =>
    match f.headers.lookup p.1 with
    | none => Except.error ("KeyError: " ++ p.1)
    | some keys => do
      let cells ← convert_to_sheet p.1 p.2 keys
      Except.ok (p.1, cells))

/-- Follows the spec's words (§4.2 Write): the number of blank rows laid
out before a data row — one if its `type` is `begin_group`, and one if its
`list_name` differs from the previous row's (no previous row for the
first data row). -/
def blanksBefore (prevRow : Option Row) (row : Row) : Nat :=
  (if rowGet row "type" = some "begin_group" then 1 else 0) +
  (match prevRow with
   | none => 0
   | some p => if rowGet row "list_name" ≠ rowGet p "list_name" then 1 else 0)

/-- Follows the spec's words (§4.2 Write): data rows are laid out in form
order from row 2 on, each pushed down by the blank rows
`blanksBefore` prescribes, with no other gaps. -/
def specDataCells (keys : List String) :
    Option Row → Nat → List Row → List (Nat × Nat × String)
  | _, _, [] => []
  | prevRow, p, row :: rest =>
    let q := p + blanksBefore prevRow row
    rowCells q keys row ++ specDataCells keys (some row) (q + 1) rest

/-- Follows the spec's words (§4.2 Write): the full layout of a written
sheet — the header list as row 1, then the data rows per `specDataCells`. -/
def specConvert (rows : List Row) (keys : List String) :
    List (Nat × Nat × String) :=
  headerCells keys ++ specDataCells keys none 2 rows

/-- Python `str.replace` for a single-character pattern (the only patterns
the markdown writer uses): every occurrence replaced, left to right. -/
def pyReplaceChar (pat : Char) (rep : List Char) : List Char → List Char
  | [] => []
  | c :: cs => (if c = pat then rep else [c]) ++ pyReplaceChar pat rep cs

/-- The escaping of one markdown cell value (`src/yxf/markdown.py`,
line 132): `v.replace("\\", "\\\\").replace("|", "\\|")` — double every
backslash first, then escape every pipe. -/
def mdEscape (s : String) : String :=
  String.mk (pyReplaceChar '|' ['\\', '|'] (pyReplaceChar '\\' ['\\', '\\'] s.data))

/-- The newline substitution of `src/yxf/markdown.py`, lines 121-129:
when the value contains a newline, replace each newline with a space
(emitting a warning, which carries no data). -/
def mdSubstNewlines (s : String) : String :=
  if s.data.contains '\n' then String.mk (pyReplaceChar '\n' [' '] s.data) else s

/-- Follows the spec's words (§4.4 Write): the escaping as a single
left-to-right pass over the characters of the original value. -/
def onePassEscChars : List Char → List Char
  | [] => []
  | c :: cs =>
    (if c = '\\' then ['\\', '\\'] else if c = '|' then ['\\', '|'] else [c]) ++
      onePassEscChars cs

/-- Follows the spec's words (§4.4 Write): single-pass escaping of a cell
value. -/
def specOnePassEscape (s : String) : String :=
  String.mk (onePassEscChars s.data)

/-- Python `str.ljust`: pad with spaces on the right up to the width. -/
def pyLjust (s : String) (w : Nat) : String :=
  s ++ String.mk (List.replicate (w - s.length) ' ')

/-- `dict(zip(headers, range(len(headers))))` from `src/yxf/markdown.py`,
line 101: each header name mapped to its column index (on duplicate names
the later index wins, as with Python dictionary assignment). -/
def buildHeaderIndices (headers : List String) : List (String × Nat) :=
  headers.enum.foldl (fun m p => odInsert m p.2 p.1) []

/-- `widths[i] = max(widths[i], n)`. -/
def bumpWidth (ws : List Nat) (i : Nat) (n : Nat) : List Nat :=
  ws.set i (max (ws.getD i 0) n)

/-- The column-width loop of `write_markdown` (`src/yxf/markdown.py`,
lines 134-139): starting from the header lengths, take the maximum cell
length per column; a row key with no header index is a Python
`KeyError`. -/
def computeWidths (hIdx : List (String × Nat)) :
    List Nat → List Row → Except String (List Nat)
  | ws, [] => .ok ws
  | ws, row :: rest => do
    let ws' ← row.foldlM (fun acc kv =>
      match hIdx.lookup kv.1 with
      | none => Except.error ("KeyError: " ++ kv.1)
      | some i => Except.ok (bumpWidth acc i kv.2.length)) ws
    computeWidths hIdx ws' rest

/-- The comment paragraphs of a sheet (`src/yxf/markdown.py`,
lines 105-110): for each row carrying a non-empty `"#"` value, in row
order, the value followed by a blank line. -/
def mdCommentParagraphs (sheet : List Row) : List String :=
  sheet.foldl (fun acc row =>
    match row.lookup "#" with
    | some c => if c ≠ "" then acc ++ [c, ""] else acc
    | none => acc) []

/-- `del row["#"]` applied to every row of the sheet
(`src/yxf/markdown.py`, line 110). -/
def mdStripComments (sheet : List Row) : List Row :=
  sheet.map (fun row => row.filter (fun kv => kv.1 ≠ "#"))

/-- The value-rewriting loop of `write_markdown` (`src/yxf/markdown.py`,
lines 117-132): every remaining cell value is overwritten in place with
its newline-substituted, escaped text. -/
def mdEscapeSheet (sheet : List Row) : List Row :=
  sheet.map (fun row => row.map (fun kv => (kv.1, mdEscape (mdSubstNewlines kv.2))))

/-- The table rendering of `write_markdown` (`src/yxf/markdown.py`,
lines 141-150): the padded header row, the dash separator row, and one
line per non-empty data row with cells `row.get(h, "")` padded to the
column widths. -/
def mdRenderTable (headers : List String) (widths : List Nat)
    (sheet : List Row) : List String :=
  let headerRow := "| " ++ String.intercalate " | "
    ((headers.zip widths).map (fun p => pyLjust p.1 p.2)) ++ " |"
  let sepRow := "| " ++ String.intercalate " | "
    (widths.map (fun w => String.mk (List.replicate w '-'))) ++ " |"
  let dataRows := (sheet.filter (fun row => !row.isEmpty)).map (fun row =>
    "| " ++ String.intercalate " | "
      ((headers.zip widths).map (fun p => pyLjust ((row.lookup p.1).getD "") p.2)) ++
    " |")
  headerRow :: sepRow :: dataRows

/-- One iteration of the sheet loop of `write_markdown`
(`src/yxf/markdown.py`, lines 92-151).  It appends to the accumulated
output lines and returns the updated form: the Python code mutates the
row dictionaries (deleting `"#"` entries and overwriting values with
escaped text) and pops a leading `"#"` from the shared header list, so the
caller's form object changes; an absent header entry for a present sheet
is a `KeyError`, and `headers[0]` on an empty header list an
`IndexError`. -/
def mdProcessSheet (acc : List String × Form) (s : String) :
    Except String (List String × Form) :=
  let (md, f) := acc
  match f.sheets.lookup s with
  | none => .ok (md, f)
  | some sheet =>
    match f.headers.lookup s with
    | none => .error ("KeyError: " ++ s)
    | some headers0 =>
      let md := md ++ ["## " ++ s, ""]
      let md := md ++ mdCommentParagraphs sheet
      let sheet := mdStripComments sheet
      match headers0 with
      | [] => .error "IndexError: list index out of range"
      | h0 :: hrest =>
        let headers := if h0 = "#" then hrest else h0 :: hrest
        let hIdx0 := buildHeaderIndices (h0 :: hrest)
        let hIdx := if h0 = "#" then
            (hIdx0.filter (fun p => p.1 ≠ "#")).map (fun p => (p.1, p.2 - 1))
          else hIdx0
        let sheet := mdEscapeSheet sheet
        match computeWidths hIdx (headers.map String.length) sheet with
        | .error e => .error e
        | .ok widths =>
          let md := md ++ mdRenderTable headers widths sheet ++ [""]
          .ok (md, { f with sheets := odInsert f.sheets s sheet,
                            headers := odInsert f.headers s headers })

/-- `write_markdown` from `src/yxf/markdown.py`, lines 80-153: process the
three recognized sheets in order, return the joined output lines together
with the form as the call leaves it (the Python function mutates its
argument; the model returns the mutated value explicitly). -/
def write_markdown (f : Form) : Except String (String × Form) := do
  let (md, f') ← (["survey", "choices", "settings"] : List String).foldlM
    mdProcessSheet ([], f)
  .ok (String.intercalate "\n" md, f')

/-- The markdown text produced for a form, when the writer succeeds. -/
def mdOut (f : Form) : Option String :=
  (write_markdown f).toOption.map Prod.fst

/-- The state of the form after a `write_markdown` call, when it
succeeds. -/
def mdForm (f : Form) : Option Form :=
  (write_markdown f).toOption.map Prod.snd

/-- Whether an exception-carrying computation succeeded. -/
def isOkE {ε α : Type} : Except ε α → Bool
  | .ok _ => true
  | .error _ => false

/-- The error message of an exception-carrying computation, if any. -/
def errOfE {α : Type} : Except String α → Option String
  | .ok _ => none
  | .error e => some e

/-! Concrete inputs used to instantiate and to refute claims. -/

/-- A minimal workbook: one `survey` sheet, one header, one data row. -/
def wbMinimal : Workbook := [("survey", [[some "name"], [some "q1"]])]

/-- The form `read_xlsform` produces for `wbMinimal`. -/
def formMinimal : Form :=
  ⟨[("survey", [[("name", "q1")]])], [("survey", ["name"])]⟩

/-- A workbook whose `choices` sheet has a header row but no data rows. -/
def wbEmptyChoices : Workbook :=
  [("survey", [[some "name"], [some "q1"]]), ("choices", [[some "list_name"]])]

/-- The form `read_xlsform` produces for `wbEmptyChoices`: its `choices`
sheet has an empty row list. -/
def formEmptyChoices : Form :=
  ⟨[("survey", [[("name", "q1")]]), ("choices", [])],
   [("survey", ["name"]), ("choices", ["list_name"])]⟩

/-- A workbook whose `survey` header row holds `"#"` in second position. -/
def wbCommentMisplaced : Workbook :=
  [("survey", [[some "type", some "#", some "name"],
               [some "text", some "c", some "q1"]])]

/-- A form whose `survey` sheet has an empty row list. -/
def formEmptySurvey : Form := ⟨[("survey", [])], [("survey", ["name"])]⟩

/-- A form whose survey cells contain a pipe and a backslash. -/
def formPipes : Form :=
  ⟨[("survey", [[("label", "A | B")], [("label", "A \\ B")]])],
   [("survey", ["label"])]⟩

/-- A form with a leading comment row, a comment-first header list, and a
pipe in a cell value. -/
def formWithComment : Form :=
  ⟨[("survey", [[("#", "Converted by yxf, from t.xlsx. Edit it.")],
                [("name", "q1"), ("label", "A | B")]])],
   [("survey", ["#", "name", "label"])]⟩

/-- The state `formWithComment` is left in by a `write_markdown` call:
the comment entry deleted (leaving an empty first row), the escaped pipe
stored back into the cell, and `"#"` popped from the header list. -/
def formWithCommentAfter : Form :=
  ⟨[("survey", [[], [("name", "q1"), ("label", "A \\| B")]])],
   [("survey", ["name", "label"])]⟩

/-! ## Generic lemmas about ordered-dictionary association lists -/

theorem lookup_odInsert_self {α : Type} (m : List (String × α)) (k : String)
    (v : α) : (odInsert m k v).lookup k = some v := by
  induction m with
  | nil => simp [odInsert, List.lookup]
  | cons p rest ih =>
    by_cases h : p.1 = k
    · simp [odInsert, h, List.lookup]
    · simpa [odInsert, h, List.lookup, beq_false_of_ne (Ne.symm h)] using ih

theorem lookup_odInsert_ne {α : Type} (m : List (String × α)) (k k' : String)
    (v : α) (h : k' ≠ k) : (odInsert m k v).lookup k' = m.lookup k' := by
  induction m with
  | nil => simp [odInsert, List.lookup, beq_false_of_ne h]
  | cons p rest ih =>
    by_cases hp : p.1 = k
    · subst hp
      simp [odInsert, List.lookup, beq_false_of_ne h]
    · by_cases hp' : p.1 = k'
      · simp [odInsert, hp, List.lookup, hp', h]
      · simp only [odInsert, if_neg hp]
        simpa [List.lookup, beq_false_of_ne (Ne.symm hp')] using ih

theorem map_fst_odInsert_of_mem {α : Type} (m : List (String × α))
    (k : String) (v : α) (h : k ∈ m.map Prod.fst) :
    (odInsert m k v).map Prod.fst = m.map Prod.fst := by
  induction m with
  | nil => simp at h
  | cons p rest ih =>
    by_cases hp : p.1 = k
    · simp [odInsert, hp]
    · simp only [List.map_cons, List.mem_cons] at h
      rcases h with h | h


      · exact absurd h.symm hp
      · simp [odInsert, hp, ih h]

theorem odInsert_odInsert_same {α : Type} (m : List (String × α))
    (k : String) (v : α) : odInsert (odInsert m k v) k v = odInsert m k v := by
  induction m with
  | nil => simp [odInsert]
  | cons p rest ih =>
    by_cases hp : p.1 = k
    · simp [odInsert, hp]
    · simp [odInsert, hp, ih]

theorem lookup_append {α : Type} (l₁ l₂ : List (String × α)) (k : String) :
    (l₁ ++ l₂).lookup k = ((l₁.lookup k).orElse (fun _ => l₂.lookup k)) := by
  induction l₁ with
  | nil => simp [List.lookup]
  | cons p rest ih =>
    by_cases hp : p.1 = k
    · simp [List.lookup, hp]
    · simpa [List.lookup, beq_false_of_ne (Ne.symm hp)] using ih

theorem lookup_map_snd {α β : Type} (l : List (String × α)) (g : α → β)
    (k : String) :
    (l.map (fun p => (p.1, g p.2))).lookup k = (l.lookup k).map g := by
  induction l with
  | nil => simp [List.lookup]
  | cons p rest ih =>
    by_cases hp : p.1 = k
    · simp [List.lookup, hp]
    · simpa [List.lookup, beq_false_of_ne (Ne.symm hp)] using ih

theorem lookup_isSome_of_mem_fst {α : Type} (l : List (String × α))
    (k : String) (h : k ∈ l.map Prod.fst) : (l.lookup k).isSome := by
  induction l with
  | nil => simp at h
  | cons p rest ih =>
    by_cases hp : p.1 = k
    · simp [List.lookup, hp]
    · simp only [List.map_cons, List.mem_cons] at h
      rcases h with h | h
      · exact absurd h.symm hp
      · simpa [List.lookup, beq_false_of_ne (Ne.symm hp)] using ih h

theorem lookup_eq_some_of_mem_nodup {α : Type} (l : List (String × α))
    (p : String × α) (hn : (l.map Prod.fst).Nodup) (hm : p ∈ l) :
    l.lookup p.1 = some p.2 := by
  induction l with
  | nil => simp at hm
  | cons q rest ih =>
    simp only [List.map_cons, List.nodup_cons] at hn
    rcases List.mem_cons.mp hm with h | h
    · subst h
      simp [List.lookup]
    · have hne : p.1 ≠ q.1 := by
        intro he
        exact hn.1 (he ▸ List.mem_map_of_mem Prod.fst h)
      simpa [List.lookup, beq_false_of_ne hne] using ih hn.2 h

theorem mem_of_lookup_eq_some {α : Type} (l : List (String × α))
    (k : String) (v : α) (h : l.lookup k = some v) : (k, v) ∈ l := by
  induction l with
  | nil => simp [List.lookup] at h
  | cons q rest ih =>
    by_cases hq : q.1 = k
    · rw [List.lookup, show (k == q.1) = true from beq_iff_eq.mpr hq.symm] at h
      simp only [Option.some_inj] at h
      have hqv : q = (k, v) := Prod.ext hq h
      exact List.mem_cons.mpr (Or.inl hqv.symm)
    · rw [List.lookup, show (k == q.1) = false from beq_false_of_ne (Ne.symm hq)] at h
      exact List.mem_cons_of_mem q (ih h)

/-! ## Lemmas about `row_to_dict` and `convert_sheet` -/

theorem rowToDictAux_isOk_iff (l : List (Option String × Cell)) (acc : Row) :
    isOkE (rowToDictAux l acc) = true ↔
      ∀ p ∈ l, cellPresent p.2 = true → p.1 ≠ none := by
  induction l generalizing acc with
  | nil => simp [rowToDictAux, isOkE]
  | cons p rest ih =>
    obtain ⟨h, v⟩ := p
    cases v with
    | none => simp [rowToDictAux, ih, cellPresent]
    | some s =>
      by_cases hs : s = ""
      · subst hs
        simp [rowToDictAux, ih, cellPresent]
      · cases h with
        | none => simp [rowToDictAux, isOkE, cellPresent, hs]
        | some hk => simp [rowToDictAux, hs, ih, cellPresent]

theorem row_to_dict_map_some_isOk (hs : List String) (vs : List Cell) :
    isOkE (row_to_dict (hs.map some) vs) = true := by
  refine (rowToDictAux_isOk_iff _ _).mpr (fun p hp _ => ?_)
  have h1 := (List.of_mem_zip hp).1
  rcases List.mem_map.mp h1 with ⟨s, _, hse⟩
  rw [← hse]
  simp

theorem mapM_except_isOk {α β : Type} (l : List α) (f : α → Except String β)
    (h : ∀ a ∈ l, isOkE (f a) = true) : isOkE (l.mapM f) = true := by
  induction l with
  | nil => rfl
  | cons a rest ih =>
    have ha := h a (List.mem_cons_self a rest)
    have hr := ih (fun x hx => h x (List.mem_cons_of_mem a hx))
    rw [List.mapM_cons]
    cases hfa : f a with
    | error e => rw [hfa] at ha; simp [isOkE] at ha
    | ok b =>
      cases hrest : rest.mapM f with
      | error e => rw [hrest] at hr; simp [isOkE] at hr
      | ok bs => rfl

theorem convert_sheet_isOk (g : Grid) (hg : g ≠ []) :
    isOkE (convert_sheet g) = true := by
  match g with
  | [] => exact absurd rfl hg
  | headerRow :: content =>
    rw [convert_sheet]
    have hmm := mapM_except_isOk content
      (fun r => row_to_dict
        (((truncate_row headerRow).map stringify_value).map some)
        (((truncate_row r).map stringify_value).map some))
      (fun r _ => row_to_dict_map_some_isOk _ _)
    cases hres : content.mapM (fun r => row_to_dict
        (((truncate_row headerRow).map stringify_value).map some)
        (((truncate_row r).map stringify_value).map some)) with
    | error e => rw [hres] at hmm; simp [isOkE] at hmm
    | ok dicts => rfl

theorem convert_sheet_rows_nonempty (g : Grid) (rows : List Row)
    (h : convert_sheet g = .ok rows) : ∀ r ∈ rows, r ≠ [] := by
  match g with
  | [] => simp [convert_sheet] at h
  | headerRow :: content =>
    rw [convert_sheet] at h
    cases hres : content.mapM (fun r => row_to_dict
        (((truncate_row headerRow).map stringify_value).map some)
        (((truncate_row r).map stringify_value).map some)) with
    | error e =>
      rw [hres] at h
      have hbad : (Except.error e : Except String (List Row)) = Except.ok rows := h
      exact Except.noConfusion hbad
    | ok dicts =>
      rw [hres] at h
      have h' : Except.ok (dicts.filter (fun d => !d.isEmpty)) =
          (Except.ok rows : Except String (List Row)) := h
      have h'' := Except.ok.inj h'
      intro r hr
      rw [← h''] at hr
      have hf := (List.mem_filter.mp hr).2
      intro hcontra
      subst hcontra
      simp at hf

theorem mapM_row_to_dict_nil_headers (content : List (List Cell)) :
    content.mapM (fun r => row_to_dict (List.map some [])
      (((truncate_row r).map stringify_value).map some)) =
      .ok (content.map (fun _ => ([] : Row))) := by
  induction content with
  | nil => rfl
  | cons a rest ih => rw [List.mapM_cons, ih]; rfl

theorem convert_sheet_headers_nil (g : Grid) (hg : g ≠ [])
    (hh : headersOfGrid g = []) : convert_sheet g = .ok [] := by
  match g with
  | [] => exact absurd rfl hg
  | headerRow :: content =>
    have hh' : (truncate_row headerRow).map stringify_value = [] := by
      simpa [headersOfGrid] using hh
    rw [convert_sheet, hh', mapM_row_to_dict_nil_headers content]
    have hflt : (content.map (fun _ => ([] : Row))).filter
        (fun d => !d.isEmpty) = [] := by
      induction content with
      | nil => rfl
      | cons a rest ih => simp [ih]
    exact congrArg Except.ok hflt

/-- **C2** (corrected).  `row_to_dict` zips headers and values
positionally (truncating to the shorter sequence, as Python `zip` does),
omits pairs whose value is absent or empty, and fails exactly when some
zipped pair has a non-empty value under an absent header; in particular
`["name","type","label"]` against `["q1","",None]` yields `{"name":"q1"}`,
`[None]` against `["x"]` fails, and — contrary to the claim — a non-empty
value in a trailing column beyond the header list is silently ignored
rather than an error. -/
theorem claim_C2 :
    (∀ hs vs : List (Option String),
        isOkE (row_to_dict hs vs) = true ↔
          ∀ p ∈ hs.zip vs, cellPresent p.2 = true → p.1 ≠ none)
    ∧ row_to_dict [some "name", some "type", some "label"]
        [some "q1", some "", none] = .ok [("name", "q1")]
    ∧ row_to_dict [none] [some "x"] = .error "Cell with no column header: x"
    ∧ row_to_dict [some "name"] [some "q1", some "x"] = .ok [("name", "q1")] :=
  ⟨fun hs vs => rowToDictAux_isOk_iff (hs.zip vs) [], rfl, rfl, rfl⟩

/-- **C2 counterexample**: with more values than headers and the non-empty
value `"x"` in the unnamed trailing column, `row_to_dict` succeeds
(Python `zip` drops the trailing value) instead of failing as the claim
states. -/
theorem claim_C2_counterexample :
    row_to_dict [some "name"] [some "q1", some "x"] = .ok [("name", "q1")] ∧
    isOkE (row_to_dict [some "name"] [some "q1", some "x"]) = true :=
  ⟨rfl, rfl⟩

/-- **C2 witness**: the characterization applied at a concrete input. -/
theorem claim_C2_witness :
    isOkE (row_to_dict [some "name", some "type"] [some "q1", none]) = true :=
  (claim_C2.1 [some "name", some "type"] [some "q1", none]).mpr (by decide)

/-! ## The markdown escaping (claims C5 and C9) -/

theorem pyReplaceChar_append (pat : Char) (rep : List Char) (a b : List Char) :
    pyReplaceChar pat rep (a ++ b) =
      pyReplaceChar pat rep a ++ pyReplaceChar pat rep b := by
  induction a with
  | nil => rfl
  | cons c cs ih => simp [pyReplaceChar, ih]

theorem escape_two_pass_eq_one_pass (l : List Char) :
    pyReplaceChar '|' ['\\', '|'] (pyReplaceChar '\\' ['\\', '\\'] l) =
      onePassEscChars l := by
  induction l with
  | nil => rfl
  | cons c cs ih =>
    by_cases hb : c = '\\'
    · subst hb
      simp [pyReplaceChar, onePassEscChars, pyReplaceChar_append, ih]
    · by_cases hp : c = '|'
      · subst hp
        simp [pyReplaceChar, onePassEscChars, pyReplaceChar_append, ih]
      · simp [pyReplaceChar, onePassEscChars, hb, hp, ih]

/-- **C5** (confirmed).  The markdown writer escapes each cell value by
doubling every backslash first and then prefixing every pipe with a
backslash; this two-pass escaping equals the single left-to-right pass
the specification describes, `"A | B"` renders as `"A \| B"`, `"A \ B"`
(one backslash) renders as `"A \\ B"` (two), and a form holding those two
cell values is written with exactly those escaped texts in its table. -/
theorem claim_C5 :
    (∀ v : String, mdEscape v = specOnePassEscape v)
    ∧ mdEscape "A | B" = "A \\| B"
    ∧ mdEscape "A \\ B" = "A \\\\ B"
    ∧ mdOut formPipes =
        some "## survey\n\n| label  |\n| ------ |\n| A \\| B |\n| A \\\\ B |\n" :=
  ⟨fun v => congrArg String.mk (escape_two_pass_eq_one_pass v.data),
   by decide, by decide, by decide⟩

/-- **C9** (corrected).  `write_markdown` mutates the form it is given —
on `formWithComment` it deletes the `"#"` comment entry from the first
survey row (leaving it empty), pops the leading `"#"` from the survey
header list, and overwrites the cell `"A | B"` with its escaped text
`"A \| B"` — so the resulting form differs from the input, and running
`write_markdown` again on that result produces different output than the
first call did.  (The consequence is not universal: a form with no `"#"`
entries and no characters that escaping changes is left value-unchanged,
see the counterexample.) -/
theorem claim_C9 :
    mdForm formWithComment = some formWithCommentAfter
    ∧ formWithCommentAfter ≠ formWithComment
    ∧ (mdOut formWithComment).isSome = true
    ∧ ((mdForm formWithComment).bind mdOut).isSome = true
    ∧ (mdForm formWithComment).bind mdOut ≠ mdOut formWithComment := by
  refine ⟨by decide, by decide, by decide, by decide, by decide⟩

/-- **C9 counterexample**: on a form with no `"#"` entries and no
characters that escaping changes, `write_markdown` leaves the form
value-unchanged and a second call produces the same output — so the
claimed consequence does not hold for every form. -/
theorem claim_C9_counterexample :
    mdForm formMinimal = some formMinimal
    ∧ (mdForm formMinimal).bind mdOut = mdOut formMinimal :=
  ⟨by decide, by decide⟩

/-! ## The tabular writer (claims C7 and C8) -/

theorem isOkE_bind_ok {α β : Type} (e : Except String α) (f : α → β) :
    isOkE (do let a ← e; Except.ok (f a)) = isOkE e := by
  cases e <;> rfl

theorem firstInvalidKey_eq_none_iff (row : Row) (keys : List String) :
    firstInvalidKey row keys = none ↔ ∀ kv ∈ row, kv.1 ∈ keys := by
  rw [firstInvalidKey, Option.map_eq_none', List.find?_eq_none]
  constructor
  · intro h kv hkv
    have := h kv hkv
    simpa [List.elem_iff] using this
  · intro h kv hkv
    simpa [List.elem_iff] using h kv hkv

theorem convertRows_isOk_iff (title : String) (keys : List String)
    (rows : List Row) (n : Nat) (prev : Option String) :
    isOkE (convertRows title keys n prev rows) = true ↔
      ∀ row ∈ rows, ∀ kv ∈ row, kv.1 ∈ keys := by
  induction rows generalizing n prev with
  | nil => simp [convertRows, isOkE]
  | cons row rest ih =>
    rw [convertRows]
    cases hfk : firstInvalidKey row keys with
    | some k =>
      simp only [isOkE]
      constructor
      · intro h
        exact absurd h (by simp)
      · intro h
        exfalso
        have := (firstInvalidKey_eq_none_iff row keys).mpr
          (h row (List.mem_cons_self row rest))
        rw [hfk] at this
        exact Option.noConfusion this
    | none =>
      rw [isOkE_bind_ok]
      rw [ih]
      constructor
      · intro h
        intro r hr
        rcases List.mem_cons.mp hr with h1 | h1
        · subst h1
          exact (firstInvalidKey_eq_none_iff r keys).mp hfk
        · exact h r h1
      · intro h r hr
        exact h r (List.mem_cons_of_mem row hr)

theorem convertRows_eq_spec (title : String) (keys : List String)
    (rows : List Row) (p : Nat) (pr : Row)
    (hv : ∀ row ∈ rows, ∀ kv ∈ row, kv.1 ∈ keys) :
    convertRows title keys p (rowGet pr "list_name") rows =
      .ok (specDataCells keys (some pr) p rows) := by
  induction rows generalizing p pr with
  | nil => rfl
  | cons row rest ih =>
    have hrow := hv row (List.mem_cons_self row rest)
    have hfk : firstInvalidKey row keys = none :=
      (firstInvalidKey_eq_none_iff row keys).mpr hrow
    have hrest : ∀ r ∈ rest, ∀ kv ∈ r, kv.1 ∈ keys :=
      fun r hr => hv r (List.mem_cons_of_mem row hr)
    rw [convertRows, hfk]
    by_cases hbg : rowGet row "type" = some "begin_group"
    · by_cases hln : rowGet row "list_name" ≠ rowGet pr "list_name"
      · simp only [if_pos hbg, if_pos hln]
        rw [ih (p + 1 + 1 + 1) row hrest]
        simp only [specDataCells, blanksBefore, hbg, hln]
        simp only [if_pos rfl, if_pos hln]
        rfl
      · simp only [if_pos hbg, if_neg hln]
        have heq : rowGet row "list_name" = rowGet pr "list_name" :=
          not_not.mp hln
        rw [← heq, ih (p + 1 + 1) row hrest]
        simp only [specDataCells, blanksBefore]
        simp only [if_pos hbg, if_neg hln]
        rfl
    · by_cases hln : rowGet row "list_name" ≠ rowGet pr "list_name"
      · simp only [if_neg hbg, if_pos hln]
        rw [ih (p + 1 + 1) row hrest]
        simp only [specDataCells, blanksBefore]
        simp only [if_neg hbg, if_pos hln]
        rfl
      · simp only [if_neg hbg, if_neg hln]
        have heq : rowGet row "list_name" = rowGet pr "list_name" :=
          not_not.mp hln
        rw [← heq, ih (p + 1) row hrest]
        simp only [specDataCells, blanksBefore]
        simp only [if_neg hbg, if_neg hln]
        rfl

/-- **C8** (confirmed).  Under the write-time validity condition of C7,
`_convert_to_sheet` produces exactly the layout described by the
specification: the header list as row 1, the data rows in form order from
row 2 on, with one blank row before each `begin_group` row, one blank row
at each `list_name` change between consecutive rows, and no other gaps. -/
theorem claim_C8 (title : String) (keys : List String) (rows : List Row)
    (hv : ∀ row ∈ rows, ∀ kv ∈ row, kv.1 ∈ keys) :
    convert_to_sheet title rows keys = .ok (specConvert rows keys) := by
  cases rows with
  | nil => rfl
  | cons r rest =>
    rw [convert_to_sheet, specConvert]
    have hr := hv r (List.mem_cons_self r rest)
    have hfk : firstInvalidKey r keys = none :=
      (firstInvalidKey_eq_none_iff r keys).mpr hr
    have hinit : (r :: rest).head?.bind (fun q => rowGet q "list_name") =
        rowGet r "list_name" := rfl
    rw [hinit, convertRows, hfk]
    have hrest : ∀ q ∈ rest, ∀ kv ∈ q, kv.1 ∈ keys :=
      fun q hq => hv q (List.mem_cons_of_mem r hq)
    by_cases hbg : rowGet r "type" = some "begin_group"
    · simp only [if_pos hbg, if_neg (show ¬rowGet r "list_name" ≠ rowGet r "list_name" from not_not.mpr rfl)]
      rw [convertRows_eq_spec title keys rest (2 + 1 + 1) r hrest]
      simp only [specDataCells, blanksBefore]
      simp only [if_pos hbg]
      rfl
    · simp only [if_neg hbg, if_neg (show ¬rowGet r "list_name" ≠ rowGet r "list_name" from not_not.mpr rfl)]
      rw [convertRows_eq_spec title keys rest (2 + 1) r hrest]
      simp only [specDataCells, blanksBefore]
      simp only [if_neg hbg]
      rfl

/-- **C8 witness**: the layout equality applied to a concrete sheet with
a `begin_group` row and a `list_name` change. -/
theorem claim_C8_witness :
    convert_to_sheet "survey"
      [[("type", "begin_group"), ("name", "g")], [("type", "text"), ("name", "q")]]
      ["type", "name"] =
    .ok (specConvert
      [[("type", "begin_group"), ("name", "g")], [("type", "text"), ("name", "q")]]
      ["type", "name"]) :=
  claim_C8 "survey" ["type", "name"]
    [[("type", "begin_group"), ("name", "g")], [("type", "text"), ("name", "q")]]
    (by decide)

/-- **C7** (confirmed).  At tabular write time a sheet is written without
error exactly when every key of every row is declared in the sheet's
header list; a row with an undeclared key raises the error naming the
offending key and the row by its `name` value or `"(unnamed)"`, shown
here on both variants. -/
theorem claim_C7 :
    (∀ (title : String) (keys : List String) (rows : List Row),
        isOkE (convert_to_sheet title rows keys) = true ↔
          ∀ row ∈ rows, ∀ kv ∈ row, kv.1 ∈ keys)
    ∧ convert_to_sheet "survey" [[("name", "q1"), ("bogus", "v")]] ["name", "type"]
        = .error "Invalid key \"bogus\" in row \"q1\". Add it to yxf.headers.survey in the YAML file."
    ∧ convert_to_sheet "choices" [[("bogus", "v")]] ["list_name"]
        = .error "Invalid key \"bogus\" in row \"(unnamed)\". Add it to yxf.headers.choices in the YAML file." := by
  refine ⟨fun title keys rows => ?_, rfl, rfl⟩
  rw [convert_to_sheet, isOkE_bind_ok]
  exact convertRows_isOk_iff title keys rows 2
    (rows.head?.bind (fun r => rowGet r "list_name"))

/-- **C7 witness**: the characterization applied at a concrete valid
sheet. -/
theorem claim_C7_witness :
    isOkE (convert_to_sheet "survey" [[("name", "q1")]] ["name", "type"]) = true :=
  (claim_C7.1 "survey" ["name", "type"] [[("name", "q1")]]).mpr (by decide)

/-! ## Comment reconciliation (claims C6 and C10) -/

theorem pyStartsWith_desired (name fmt : String) :
    pyStartsWith (desiredComment name fmt) "Converted by yxf," = true := by
  rw [pyStartsWith, List.isPrefixOf_iff_prefix]
  have h1 : "Converted by yxf,".data <+: "Converted by yxf, from ".data := by
    decide
  refine h1.trans ?_
  have h2 : (desiredComment name fmt).data =
      "Converted by yxf, from ".data ++ (name.data ++ (". Edit the ".data ++
        (fmt.data ++ " file instead of the Excel file.".data))) := by
    simp [desiredComment]
  rw [h2]
  exact List.prefix_append _ _

theorem ensure_step (f : Form) (name fmt : String) (firstLine : Row)
    (rest : List Row) (hs : List String)
    (hsur : f.sheets.lookup "survey" = some (firstLine :: rest))
    (hhs : f.headers.lookup "survey" = some hs) :
    ensure_yxf_comment f name fmt = .ok (Form.mk
      (odInsert f.sheets "survey"
        (if needsInsert firstLine then
          ([("#", desiredComment name fmt)] : Row) :: firstLine :: rest
         else odInsert firstLine "#" (desiredComment name fmt) :: rest))
      (if "#" ∈ hs then f.headers
       else odInsert f.headers "survey" ("#" :: hs))) := by
  rw [ensure_yxf_comment, hsur]
  simp only [hhs]
  by_cases hm : "#" ∈ hs
  · rw [if_pos hm, if_pos hm]
  · rw [if_neg hm, if_neg hm]

theorem odInsert_lookup_fixed (r : Row) (k v : String)
    (h : r.lookup k = some v) : odInsert r k v = r := by
  induction r with
  | nil => simp [List.lookup] at h
  | cons kv tl ih =>
    by_cases hk : kv.1 = k
    · rw [List.lookup, show (k == kv.1) = true from beq_iff_eq.mpr hk.symm] at h
      simp only [Option.some_inj] at h
      have hkv : kv = (kv.1, v) := Prod.ext rfl h
      simp only [odInsert, if_pos hk]
      rw [← hkv]
    · rw [List.lookup, show (k == kv.1) = false from
        beq_false_of_ne (Ne.symm hk)] at h
      simp [odInsert, hk, ih h]

theorem ensure_idem_aux (g : Form) (name fmt : String) (first₁ : Row)
    (rest₁ : List Row) (hs₁ : List String)
    (hsur₁ : g.sheets.lookup "survey" = some (first₁ :: rest₁))
    (hhs₁ : g.headers.lookup "survey" = some hs₁)
    (hlk₁ : first₁.lookup "#" = some (desiredComment name fmt))
    (hmem₁ : "#" ∈ hs₁)
    (hfix : odInsert g.sheets "survey" (first₁ :: rest₁) = g.sheets) :
    ensure_yxf_comment g name fmt = .ok g := by
  rw [ensure_step g name fmt first₁ rest₁ hs₁ hsur₁ hhs₁]
  have hni₁ : needsInsert first₁ = false := by
    rw [needsInsert, hlk₁]
    simp [pyStartsWith_desired]
  rw [if_neg (show ¬needsInsert first₁ = true by
    rw [hni₁]; exact Bool.false_ne_true)]
  rw [odInsert_lookup_fixed first₁ "#" _ hlk₁, if_pos hmem₁, hfix]

/-- **C6** (confirmed).  On a form whose `survey` sheet is non-empty (and
which carries a survey header entry, as every valid form does),
`ensure_yxf_comment` inserts a new leading comment row exactly when the
first survey row lacks a `"#"` entry or its value does not start with
`"Converted by yxf,"` and otherwise overwrites the existing `"#"` value
in place, puts `"#"` first in the survey header list when absent, and is
idempotent: a second application with the same label and format returns
the very same form. -/
theorem claim_C6 (f : Form) (name fmt : String) (firstLine : Row)
    (rest : List Row) (hs : List String)
    (hsur : f.sheets.lookup "survey" = some (firstLine :: rest))
    (hhs : f.headers.lookup "survey" = some hs) :
    ∃ f₁, ensure_yxf_comment f name fmt = .ok f₁
      ∧ ensure_yxf_comment f₁ name fmt = .ok f₁
      ∧ f₁.sheets.lookup "survey" = some
          (if needsInsert firstLine then
            ([("#", desiredComment name fmt)] : Row) :: firstLine :: rest
           else odInsert firstLine "#" (desiredComment name fmt) :: rest)
      ∧ f₁.headers.lookup "survey" = some (if "#" ∈ hs then hs else "#" :: hs) := by
  have h1 := ensure_step f name fmt firstLine rest hs hsur hhs
  refine ⟨_, h1, ?_, ?_, ?_⟩
  · -- idempotence: the second call reproduces the same form
    have hsplit : ∃ first₁ rest₁,
        (if needsInsert firstLine then
          ([("#", desiredComment name fmt)] : Row) :: firstLine :: rest
         else odInsert firstLine "#" (desiredComment name fmt) :: rest) =
          first₁ :: rest₁
        ∧ first₁.lookup "#" = some (desiredComment name fmt) := by
      by_cases hni : needsInsert firstLine = true
      · exact ⟨_, _, by rw [if_pos hni], by simp [List.lookup]⟩
      · exact ⟨_, _, by rw [if_neg hni], lookup_odInsert_self _ _ _⟩
    obtain ⟨first₁, rest₁, heq₁, hlk₁⟩ := hsplit
    refine ensure_idem_aux _ name fmt first₁ rest₁
      (if "#" ∈ hs then hs else "#" :: hs) ?_ ?_ hlk₁ ?_ ?_
    · rw [← heq₁]
      exact lookup_odInsert_self _ _ _
    · by_cases hm : "#" ∈ hs
      · simp only [if_pos hm]
        exact hhs
      · simp only [if_neg hm]
        exact lookup_odInsert_self _ _ _
    · by_cases hm : "#" ∈ hs
      · rw [if_pos hm]; exact hm
      · rw [if_neg hm]; exact List.mem_cons_self _ _
    · rw [← heq₁]
      exact odInsert_odInsert_same f.sheets "survey" _
  · exact lookup_odInsert_self _ _ _
  · by_cases hm : "#" ∈ hs
    · simp only [if_pos hm]
      exact hhs
    · simp only [if_neg hm]
      exact lookup_odInsert_self _ _ _

/-- **C6 witness**: reconciliation applied twice to a concrete form. -/
theorem claim_C6_witness :
    ∃ f₁, ensure_yxf_comment formMinimal "a.xlsx" "YAML" = .ok f₁
      ∧ ensure_yxf_comment f₁ "a.xlsx" "YAML" = .ok f₁
      ∧ f₁.sheets.lookup "survey" = some
          (if needsInsert [("name", "q1")] then
            ([("#", desiredComment "a.xlsx" "YAML")] : Row) :: [("name", "q1")] :: []
           else odInsert [("name", "q1")] "#" (desiredComment "a.xlsx" "YAML") :: [])
      ∧ f₁.headers.lookup "survey" =
          some (if "#" ∈ ["name"] then ["name"] else "#" :: ["name"]) :=
  claim_C6 formMinimal "a.xlsx" "YAML" [("name", "q1")] [] ["name"] rfl rfl

/-- **C10** (confirmed).  `ensure_yxf_comment` requires a non-empty
`survey` sheet: with at least one survey row (and the survey header entry
every valid form carries) it completes normally, while on an empty survey
row list it fails with the index-out-of-range error from accessing
`form["survey"][0]`, before inserting any provenance row. -/
theorem claim_C10 (f : Form) (name fmt : String) (rows : List Row)
    (hsur : f.sheets.lookup "survey" = some rows) :
    (rows = [] →
      ensure_yxf_comment f name fmt = .error "IndexError: list index out of range")
    ∧ (rows ≠ [] → (f.headers.lookup "survey").isSome = true →
      isOkE (ensure_yxf_comment f name fmt) = true) := by
  constructor
  · intro he
    subst he
    rw [ensure_yxf_comment, hsur]
  · intro hne hh
    obtain ⟨hs, hhs⟩ := Option.isSome_iff_exists.mp hh
    cases rows with
    | nil => exact absurd rfl hne
    | cons firstLine rest =>
      rw [ensure_step f name fmt firstLine rest hs hsur hhs]
      rfl

/-- **C10 witness**: the failure branch at a concrete form with an empty
survey sheet. -/
theorem claim_C10_witness :
    ensure_yxf_comment formEmptySurvey "a.xlsx" "YAML" =
      .error "IndexError: list index out of range" :=
  (claim_C10 formEmptySurvey "a.xlsx" "YAML" [] rfl).1 rfl

/-! ## Invariants of the tabular reader (claims C4, C1, C3) -/

theorem lookup_eq_none_of_not_mem_fst {α : Type} (l : List (String × α))
    (k : String) (h : k ∉ l.map Prod.fst) : l.lookup k = none := by
  cases hl : l.lookup k with
  | none => rfl
  | some v =>
    exact absurd (List.mem_map_of_mem Prod.fst (mem_of_lookup_eq_some l k v hl)) h

/-- The invariant tying each produced sheet entry to its header entry. -/
def SheetHeaderInv (wb : Workbook) (a : String × List Row)
    (b : String × List String) : Prop :=
  a.1 = b.1 ∧ ∃ g, wb.lookup a.1 = some g ∧ convert_sheet g = .ok a.2
    ∧ b.2 = headersOfGrid g
    ∧ ("#" ∈ b.2 → b.2.head? = some "#")

theorem exbind_ok {α β : Type} (x : α) (f : α → Except String β) :
    (do let a ← Except.ok x; f a) = f x := rfl

theorem exbind_error {α β : Type} (e : String) (f : α → Except String β) :
    (do let a ← (Except.error e : Except String α); f a) = Except.error e := rfl

theorem readSheets_ok (names : List String) (wb : Workbook)
    (ss : List (String × List Row)) (hh : List (String × List String))
    (h : readSheets names wb = .ok (ss, hh)) :
    (ss.map Prod.fst).Sublist names
    ∧ ss.map Prod.fst = hh.map Prod.fst
    ∧ (∀ s ∈ names, (wb.lookup s).isSome = true → s ∈ ss.map Prod.fst)
    ∧ List.Forall₂ (SheetHeaderInv wb) ss hh := by
  induction names generalizing ss hh with
  | nil =>
    rw [readSheets] at h
    simp only [Except.ok.injEq, Prod.mk.injEq] at h
    obtain ⟨h1, h2⟩ := h
    subst h1
    subst h2
    exact ⟨List.nil_sublist _, rfl, by simp, List.Forall₂.nil⟩
  | cons s rest ih =>
    rw [readSheets] at h
    cases hwb : wb.lookup s with
    | none =>
      simp only [hwb] at h
      obtain ⟨hsub, hfst, hpres, hinv⟩ := ih ss hh h
      refine ⟨hsub.trans (List.sublist_cons_self s rest), hfst, ?_, hinv⟩
      intro t ht hts
      rcases List.mem_cons.mp ht with h1 | h1
      · subst h1
        rw [hwb] at hts
        simp at hts
      · exact hpres t h1 hts
    | some g =>
      simp only [hwb] at h
      cases hcs : convert_sheet g with
      | error e =>
        simp only [hcs, exbind_error] at h
        exact Except.noConfusion h
      | ok rows =>
        simp only [hcs, exbind_ok] at h
        cases hhg : headersOfGrid g with
        | nil =>
          simp only [hhg] at h
          cases hrs : readSheets rest wb with
          | error e =>
            simp only [hrs, exbind_error] at h
            exact Except.noConfusion h
          | ok p =>
            obtain ⟨ss', hh'⟩ := p
            simp only [hrs, exbind_ok, Except.ok.injEq, Prod.mk.injEq] at h
            obtain ⟨h1, h2⟩ := h
            subst h1
            subst h2
            obtain ⟨hsub, hfst, hpres, hinv⟩ := ih ss' hh' hrs
            refine ⟨hsub.cons₂ s, by simpa using hfst, ?_, ?_⟩
            · intro t ht hts
              rcases List.mem_cons.mp ht with h1 | h1
              · subst h1
                exact List.mem_cons_self _ _
              · exact List.mem_cons_of_mem _ (hpres t h1 hts)
            · refine List.Forall₂.cons ⟨rfl, g, hwb, hcs, hhg.symm, ?_⟩ hinv
              intro hmem
              simp at hmem
        | cons h0 tl =>
          simp only [hhg] at h
          by_cases hcond : h0 ≠ "#" ∧ "#" ∈ h0 :: tl
          · rw [if_pos hcond] at h
            exact Except.noConfusion h
          · rw [if_neg hcond] at h
            cases hrs : readSheets rest wb with
            | error e =>
              simp only [hrs, exbind_error] at h
              exact Except.noConfusion h
            | ok p =>
              obtain ⟨ss', hh'⟩ := p
              simp only [hrs, exbind_ok, Except.ok.injEq, Prod.mk.injEq] at h
              obtain ⟨h1, h2⟩ := h
              subst h1
              subst h2
              obtain ⟨hsub, hfst, hpres, hinv⟩ := ih ss' hh' hrs
              refine ⟨hsub.cons₂ s, by simpa using hfst, ?_, ?_⟩
              · intro t ht hts
                rcases List.mem_cons.mp ht with h1 | h1
                · subst h1
                  exact List.mem_cons_self _ _
                · exact List.mem_cons_of_mem _ (hpres t h1 hts)
              · refine List.Forall₂.cons ⟨rfl, g, hwb, hcs, hhg.symm, ?_⟩ hinv
                intro hmem
                by_cases h0c : h0 = "#"
                · subst h0c
                  rfl
                · exact absurd ⟨h0c, hmem⟩ hcond

theorem read_xlsform_ok_elim (wb : Workbook) (f : Form)
    (h : read_xlsform wb = .ok f) :
    readSheets ["survey", "choices", "settings"] wb = .ok (f.sheets, f.headers)
    ∧ (f.sheets.lookup "survey").isSome = true := by
  rw [read_xlsform] at h
  cases hrs : readSheets ["survey", "choices", "settings"] wb with
  | error e =>
    simp only [hrs, exbind_error] at h
    exact Except.noConfusion h
  | ok p =>
    obtain ⟨ss, hh⟩ := p
    simp only [hrs, exbind_ok] at h
    by_cases hsv : (ss.lookup "survey").isNone = true
    · rw [if_pos hsv] at h
      exact Except.noConfusion h
    · rw [if_neg hsv] at h
      have h2 := Except.ok.inj h
      subst h2
      refine ⟨rfl, ?_⟩
      show (ss.lookup "survey").isSome = true
      cases hl : ss.lookup "survey" with
      | none => rw [hl] at hsv; simp at hsv
      | some v => simp

theorem readSheets_comment_error (names : List String) (wb : Workbook)
    (hgrids : ∀ s ∈ names, ∀ g, wb.lookup s = some g → g ≠ [])
    (hviol : ∃ s ∈ names, ∃ g, wb.lookup s = some g ∧ "#" ∈ headersOfGrid g
      ∧ (headersOfGrid g).head? ≠ some "#") :
    ∃ s, readSheets names wb = .error (commentMsg s) := by
  induction names with
  | nil => simp at hviol
  | cons s rest ih =>
    have hgrest : ∀ t ∈ rest, ∀ g, wb.lookup t = some g → g ≠ [] :=
      fun t ht => hgrids t (List.mem_cons_of_mem s ht)
    rw [readSheets]
    cases hwb : wb.lookup s with
    | none =>
      have hvrest : ∃ t ∈ rest, ∃ g, wb.lookup t = some g ∧ "#" ∈ headersOfGrid g
          ∧ (headersOfGrid g).head? ≠ some "#" := by
        obtain ⟨t, ht, g, hg, hrest⟩ := hviol
        rcases List.mem_cons.mp ht with h1 | h1
        · subst h1
          rw [hwb] at hg
          exact Option.noConfusion hg
        · exact ⟨t, h1, g, hg, hrest⟩
      simpa only [hwb] using ih hgrest hvrest
    | some g =>
      have hg : g ≠ [] := hgrids s (List.mem_cons_self s rest) g hwb
      have hok := convert_sheet_isOk g hg
      cases hcs : convert_sheet g with
      | error e =>
        rw [hcs] at hok
        simp [isOkE] at hok
      | ok rows =>
        simp only [hwb, hcs, exbind_ok]
        by_cases hvs : "#" ∈ headersOfGrid g ∧ (headersOfGrid g).head? ≠ some "#"
        · cases hhg : headersOfGrid g with
          | nil =>
            rw [hhg] at hvs
            simp at hvs
          | cons h0 tl =>
            rw [hhg] at hvs
            simp only [hhg]
            have hcond : h0 ≠ "#" ∧ "#" ∈ h0 :: tl := by
              refine ⟨fun hc => hvs.2 ?_, hvs.1⟩
              rw [hc]
              rfl
            rw [if_pos hcond]
            exact ⟨s, rfl⟩
        · have hvrest : ∃ t ∈ rest, ∃ g, wb.lookup t = some g
              ∧ "#" ∈ headersOfGrid g ∧ (headersOfGrid g).head? ≠ some "#" := by
            obtain ⟨t, ht, g', hg', hrest⟩ := hviol
            rcases List.mem_cons.mp ht with h1 | h1
            · subst h1
              rw [hwb] at hg'
              have hgg := Option.some.inj hg'
              subst hgg
              exact absurd ⟨hrest.1, hrest.2⟩ hvs
            · exact ⟨t, h1, g', hg', hrest⟩
          obtain ⟨t, hrt⟩ := ih hgrest hvrest
          cases hhg : headersOfGrid g with
          | nil =>
            simp only [hhg]
            exact ⟨t, by simp only [hrt, exbind_error]⟩
          | cons h0 tl =>
            simp only [hhg]
            have hcond : ¬(h0 ≠ "#" ∧ "#" ∈ h0 :: tl) := by
              intro hc
              apply hvs
              rw [hhg]
              refine ⟨hc.2, fun hhd => ?_⟩
              have : h0 = "#" := by
                have := Option.some.inj hhd
                exact this
              exact hc.1 this
            rw [if_neg hcond]
            exact ⟨t, by simp only [hrt, exbind_error]⟩

theorem readSheets_no_violation_ok (names : List String) (wb : Workbook)
    (hgrids : ∀ s ∈ names, ∀ g, wb.lookup s = some g → g ≠ [])
    (hnov : ∀ s ∈ names, ∀ g, wb.lookup s = some g →
      ("#" ∉ headersOfGrid g ∨ (headersOfGrid g).head? = some "#")) :
    ∃ ss hh, readSheets names wb = .ok (ss, hh) := by
  induction names with
  | nil => exact ⟨[], [], rfl⟩
  | cons s rest ih =>
    have hgrest : ∀ t ∈ rest, ∀ g, wb.lookup t = some g → g ≠ [] :=
      fun t ht => hgrids t (List.mem_cons_of_mem s ht)
    have hnrest : ∀ t ∈ rest, ∀ g, wb.lookup t = some g →
        ("#" ∉ headersOfGrid g ∨ (headersOfGrid g).head? = some "#") :=
      fun t ht => hnov t (List.mem_cons_of_mem s ht)
    obtain ⟨ss', hh', hrs⟩ := ih hgrest hnrest
    rw [readSheets]
    cases hwb : wb.lookup s with
    | none => exact ⟨ss', hh', hrs⟩
    | some g =>
      have hg : g ≠ [] := hgrids s (List.mem_cons_self s rest) g hwb
      have hok := convert_sheet_isOk g hg
      cases hcs : convert_sheet g with
      | error e =>
        rw [hcs] at hok
        simp [isOkE] at hok
      | ok rows =>
        simp only [hcs, exbind_ok]
        cases hhg : headersOfGrid g with
        | nil =>
          simp only [hhg, hrs, exbind_ok]
          exact ⟨_, _, rfl⟩
        | cons h0 tl =>
          have hcond : ¬(h0 ≠ "#" ∧ "#" ∈ h0 :: tl) := by
            intro hc
            rcases hnov s (List.mem_cons_self s rest) g hwb with hno | hfirst
            · rw [hhg] at hno
              exact hno hc.2
            · rw [hhg] at hfirst
              exact hc.1 (Option.some.inj hfirst)
          simp only [hhg]
          rw [if_neg hcond]
          simp only [hrs, exbind_ok]
          exact ⟨_, _, rfl⟩

/-- **C4** (confirmed).  For tabular input whose present recognized sheets
each have a header row: if some recognized sheet's headers contain `"#"`
away from the first position, `read_xlsform` fails with the
comment-column-position error; if every present recognized sheet either
lacks `"#"` or lists it first (and a `survey` sheet is present), reading
succeeds. -/
theorem claim_C4 (wb : Workbook)
    (hgrids : ∀ s ∈ ["survey", "choices", "settings"], ∀ g,
      wb.lookup s = some g → g ≠ []) :
    ((∃ s ∈ ["survey", "choices", "settings"], ∃ g, wb.lookup s = some g
        ∧ "#" ∈ headersOfGrid g ∧ (headersOfGrid g).head? ≠ some "#") →
      ∃ s, read_xlsform wb = .error (commentMsg s))
    ∧ ((∀ s ∈ ["survey", "choices", "settings"], ∀ g, wb.lookup s = some g →
        ("#" ∉ headersOfGrid g ∨ (headersOfGrid g).head? = some "#")) →
      (wb.lookup "survey").isSome = true →
      ∃ f, read_xlsform wb = .ok f) := by
  constructor
  · intro hviol
    obtain ⟨s, hrs⟩ := readSheets_comment_error _ wb hgrids hviol
    refine ⟨s, ?_⟩
    rw [read_xlsform]
    simp only [hrs, exbind_error]
  · intro hnov hsur
    obtain ⟨ss, hh, hrs⟩ := readSheets_no_violation_ok _ wb hgrids hnov
    have hpres := (readSheets_ok _ wb ss hh hrs).2.2.1 "survey"
      (List.mem_cons_self _ _) hsur
    refine ⟨⟨ss, hh⟩, ?_⟩
    rw [read_xlsform]
    simp only [hrs, exbind_ok]
    rw [if_neg ?_]
    cases hl : ss.lookup "survey" with
    | none =>
      exact absurd (lookup_isSome_of_mem_fst ss "survey" hpres) (by rw [hl]; simp)
    | some v => simp

/-- **C4 witness**: a workbook whose survey headers are
`["type", "#", "name"]` is rejected with the comment-position error. -/
theorem claim_C4_witness :
    ∃ s, read_xlsform wbCommentMisplaced = .error (commentMsg s) := by
  refine (claim_C4 wbCommentMisplaced ?_).1
    ⟨"survey", List.mem_cons_self _ _,
      [[some "type", some "#", some "name"], [some "text", some "c", some "q1"]],
      rfl, by decide, by decide⟩
  intro s hs g hg
  fin_cases hs
  · rw [show wbCommentMisplaced.lookup "survey" =
      some [[some "type", some "#", some "name"],
            [some "text", some "c", some "q1"]] from rfl] at hg
    rw [← Option.some.inj hg]
    simp
  · rw [show wbCommentMisplaced.lookup "choices" = none from rfl] at hg
    exact Option.noConfusion hg
  · rw [show wbCommentMisplaced.lookup "settings" = none from rfl] at hg
    exact Option.noConfusion hg

/-! ## The structured-document boundary (claims C1 and C3) -/

theorem hasEmpty_str (s : String) : (YVal.str s).hasEmpty = false := by
  rw [YVal.hasEmpty]

theorem hasEmpty_seq (xs : List YVal) :
    (YVal.seq xs).hasEmpty = (xs.isEmpty || hasEmptyList xs) := by
  rw [YVal.hasEmpty]

theorem hasEmpty_map (kvs : List (String × YVal)) :
    (YVal.map kvs).hasEmpty = (kvs.isEmpty || hasEmptyPairs kvs) := by
  rw [YVal.hasEmpty]

theorem hasEmptyList_nil : hasEmptyList [] = false := by
  rw [hasEmptyList]

theorem hasEmptyList_cons (x : YVal) (xs : List YVal) :
    hasEmptyList (x :: xs) = (x.hasEmpty || hasEmptyList xs) := by
  rw [hasEmptyList]

theorem hasEmptyPairs_nil : hasEmptyPairs [] = false := by
  rw [hasEmptyPairs]

theorem hasEmptyPairs_cons (kv : String × YVal) (kvs : List (String × YVal)) :
    hasEmptyPairs (kv :: kvs) = (kv.2.hasEmpty || hasEmptyPairs kvs) := by
  rw [hasEmptyPairs]

theorem hasEmptyPairs_append (a b : List (String × YVal)) :
    hasEmptyPairs (a ++ b) = (hasEmptyPairs a || hasEmptyPairs b) := by
  induction a with
  | nil => rw [List.nil_append, hasEmptyPairs_nil, Bool.false_or]
  | cons kv tl ih =>
    rw [List.cons_append, hasEmptyPairs_cons, hasEmptyPairs_cons, ih,
      Bool.or_assoc]

theorem hasEmptyList_map_str (hs : List String) :
    hasEmptyList (hs.map YVal.str) = false := by
  induction hs with
  | nil => rw [List.map_nil, hasEmptyList_nil]
  | cons s tl ih =>
    rw [List.map_cons, hasEmptyList_cons, ih, hasEmpty_str, Bool.or_false]

theorem hasEmptyPairs_str_pairs (r : Row) :
    hasEmptyPairs (r.map (fun kv => (kv.1, YVal.str kv.2))) = false := by
  induction r with
  | nil => rw [List.map_nil, hasEmptyPairs_nil]
  | cons kv tl ih =>
    rw [List.map_cons, hasEmptyPairs_cons, ih, hasEmpty_str, Bool.false_or]

theorem hasEmpty_rowToYVal (r : Row) (hr : r ≠ []) :
    (rowToYVal r).hasEmpty = false := by
  rw [rowToYVal, hasEmpty_map, hasEmptyPairs_str_pairs, Bool.or_false]
  cases r with
  | nil => exact absurd rfl hr
  | cons kv tl => rfl

theorem hasEmptyList_rows (rows : List Row) (h : ∀ r ∈ rows, r ≠ []) :
    hasEmptyList (rows.map rowToYVal) = false := by
  induction rows with
  | nil => rw [List.map_nil, hasEmptyList_nil]
  | cons r tl ih =>
    rw [List.map_cons, hasEmptyList_cons,
      hasEmpty_rowToYVal r (h r (List.mem_cons_self r tl)),
      ih (fun q hq => h q (List.mem_cons_of_mem r hq)), Bool.or_false]

theorem hasEmpty_sheetToYVal (rows : List Row) (hne : rows ≠ [])
    (h : ∀ r ∈ rows, r ≠ []) : (sheetToYVal rows).hasEmpty = false := by
  rw [sheetToYVal, hasEmpty_seq, hasEmptyList_rows rows h, Bool.or_false]
  cases rows with
  | nil => exact absurd rfl hne
  | cons r tl => rfl

theorem hasEmpty_headersToYVal (hs : List String) (h : hs ≠ []) :
    (headersToYVal hs).hasEmpty = false := by
  rw [headersToYVal, hasEmpty_seq, hasEmptyList_map_str, Bool.or_false]
  cases hs with
  | nil => exact absurd rfl h
  | cons s tl => rfl

theorem hasEmptyPairs_sheet_entries (sheets : List (String × List Row))
    (h : ∀ p ∈ sheets, p.2 ≠ [] ∧ ∀ r ∈ p.2, r ≠ []) :
    hasEmptyPairs (sheets.map (fun p => (p.1, sheetToYVal p.2))) = false := by
  induction sheets with
  | nil => rw [List.map_nil, hasEmptyPairs_nil]
  | cons p tl ih =>
    obtain ⟨hpne, hprows⟩ := h p (List.mem_cons_self p tl)
    rw [List.map_cons, hasEmptyPairs_cons, hasEmpty_sheetToYVal p.2 hpne hprows,
      ih (fun q hq => h q (List.mem_cons_of_mem p hq)), Bool.or_false]

theorem hasEmptyPairs_header_entries (hh : List (String × List String))
    (h : ∀ q ∈ hh, q.2 ≠ []) :
    hasEmptyPairs (hh.map (fun p => (p.1, headersToYVal p.2))) = false := by
  induction hh with
  | nil => rw [List.map_nil, hasEmptyPairs_nil]
  | cons q tl ih =>
    rw [List.map_cons, hasEmptyPairs_cons,
      hasEmpty_headersToYVal q.2 (h q (List.mem_cons_self q tl)),
      ih (fun w hw => h w (List.mem_cons_of_mem q hw)), Bool.or_false]

theorem formToYVal_hasEmpty (f : Form)
    (h1 : ∀ p ∈ f.sheets, p.2 ≠ [] ∧ ∀ r ∈ p.2, r ≠ [])
    (h2 : f.headers ≠ [])
    (h3 : ∀ q ∈ f.headers, q.2 ≠ []) :
    (formToYVal f).hasEmpty = false := by
  rw [formToYVal, hasEmpty_map, hasEmptyPairs_append,
    hasEmptyPairs_sheet_entries f.sheets h1]
  have hd : hasEmptyPairs [("yxf", YVal.map [("headers",
      YVal.map (f.headers.map (fun p => (p.1, headersToYVal p.2))))])] =
      false := by
    rw [hasEmptyPairs_cons, hasEmptyPairs_nil, Bool.or_false, hasEmpty_map,
      hasEmptyPairs_cons, hasEmptyPairs_nil, Bool.or_false, hasEmpty_map,
      hasEmptyPairs_header_entries f.headers h3]
    have hmapne : (f.headers.map (fun p => (p.1, headersToYVal p.2))).isEmpty =
        false := by
      cases hhd : f.headers with
      | nil => exact absurd hhd h2
      | cons q tl => rfl
    rw [hmapne]
    rfl
  rw [hd]
  have ha : (f.sheets.map (fun p => (p.1, sheetToYVal p.2)) ++
      [("yxf", YVal.map [("headers",
        YVal.map (f.headers.map (fun p => (p.1, headersToYVal p.2))))])]).isEmpty
      = false := by
    rw [List.isEmpty_eq_false_iff_exists_mem]
    exact ⟨_, List.mem_append_right _ (List.mem_cons_self _ _)⟩
  rw [ha]
  rfl

theorem write_yaml_ok (f : Form)
    (h1 : ∀ p ∈ f.sheets, p.2 ≠ [] ∧ ∀ r ∈ p.2, r ≠ [])
    (h2 : f.headers ≠ [])
    (h3 : ∀ q ∈ f.headers, q.2 ≠ []) :
    write_yaml f = .ok (formToYVal f) := by
  rw [write_yaml]
  simp only [formToYVal_hasEmpty f h1 h2 h3]
  rfl

theorem mapM_decodeRowEntry (r : Row) :
    (r.map (fun kv => (kv.1, YVal.str kv.2))).mapM decodeRowEntry = .ok r := by
  induction r with
  | nil => rfl
  | cons kv tl ih =>
    rw [List.map_cons, List.mapM_cons, ih]
    rfl

theorem decodeRow_rowToYVal (r : Row) : decodeRow (rowToYVal r) = .ok r :=
  mapM_decodeRowEntry r

theorem decodeSheet_sheetToYVal (rows : List Row) :
    decodeSheet (sheetToYVal rows) = .ok rows := by
  show (rows.map rowToYVal).mapM decodeRow = .ok rows
  induction rows with
  | nil => rfl
  | cons r tl ih =>
    rw [List.map_cons, List.mapM_cons, ih, decodeRow_rowToYVal]
    rfl

theorem decodeHeaders_headersToYVal (hs : List String) :
    decodeHeaders (headersToYVal hs) = .ok hs := by
  have key : ∀ (l : List String),
      ((l.map YVal.str).mapM (fun v =>
        match v with
        | YVal.str s => Except.ok s
        | _ => (Except.error "expected a scalar header" : Except String String)))
        = .ok l := by
    intro l
    induction l with
    | nil => rfl
    | cons s tl ih =>
      rw [List.map_cons, List.mapM_cons, ih]
      rfl
  exact key hs

theorem mapM_decode_sheet_entries (sheets : List (String × List Row)) :
    (sheets.map (fun p => (p.1, sheetToYVal p.2))).mapM
      (fun p => do
        let rows ← decodeSheet p.2
        Except.ok (p.1, rows)) = .ok sheets := by
  induction sheets with
  | nil => rfl
  | cons p tl ih =>
    rw [List.map_cons, List.mapM_cons, ih]
    simp only []
    rw [decodeSheet_sheetToYVal]
    rfl

theorem mapM_decode_header_entries (hh : List (String × List String)) :
    (hh.map (fun p => (p.1, headersToYVal p.2))).mapM
      (fun p => do
        let hs ← decodeHeaders p.2
        Except.ok (p.1, hs)) = .ok hh := by
  induction hh with
  | nil => rfl
  | cons q tl ih =>
    rw [List.map_cons, List.mapM_cons, ih]
    simp only []
    rw [decodeHeaders_headersToYVal]
    rfl

theorem read_yaml_formToYVal (f : Form)
    (hyxf : "yxf" ∉ f.sheets.map Prod.fst)
    (hsur : (f.sheets.lookup "survey").isSome = true) :
    read_yaml (formToYVal f) = .ok f := by
  have hent : ∀ (v : YVal), (f.sheets.map (fun p => (p.1, sheetToYVal p.2))
      ++ [("yxf", v)]).lookup "yxf" = some v := by
    intro v
    rw [lookup_append, lookup_map_snd,
      lookup_eq_none_of_not_mem_fst f.sheets "yxf" hyxf]
    rfl
  have hsurent : ∀ (v : YVal), ((f.sheets.map (fun p => (p.1, sheetToYVal p.2))
      ++ [("yxf", v)]).lookup "survey").isSome = true := by
    intro v
    rw [lookup_append, lookup_map_snd]
    cases hl : f.sheets.lookup "survey" with
    | none => rw [hl] at hsur; simp at hsur
    | some rows => rfl
  have hfilter : (f.sheets.map (fun p => (p.1, sheetToYVal p.2))
      ++ [("yxf", YVal.map [("headers",
        YVal.map (f.headers.map (fun p => (p.1, headersToYVal p.2))))])]).filter
      (fun p => p.1 ≠ "yxf") = f.sheets.map (fun p => (p.1, sheetToYVal p.2)) := by
    rw [List.filter_append]
    have hone : ([("yxf", YVal.map [("headers",
        YVal.map (f.headers.map (fun p => (p.1, headersToYVal p.2))))])].filter
        (fun p => p.1 ≠ "yxf") : List (String × YVal)) = [] := by
      rfl
    rw [hone, List.append_nil, List.filter_eq_self]
    intro p hp
    rcases List.mem_map.mp hp with ⟨q, hq, hqe⟩
    have : p.1 = q.1 := by rw [← hqe]
    rw [this]
    have hq1 : q.1 ∈ f.sheets.map Prod.fst := List.mem_map_of_mem Prod.fst hq
    simp only [ne_eq, decide_eq_true_eq]
    intro hcontra
    rw [hcontra] at hq1
    exact hyxf hq1
  rw [formToYVal, read_yaml]
  rw [hent]
  simp only [hent, Option.isNone_some]
  have hsv := hsurent (YVal.map [("headers",
    YVal.map (f.headers.map (fun p => (p.1, headersToYVal p.2))))])
  cases hsl : (f.sheets.map (fun p => (p.1, sheetToYVal p.2))
      ++ [("yxf", YVal.map [("headers",
        YVal.map (f.headers.map (fun p => (p.1, headersToYVal p.2))))])]).lookup
      "survey" with
  | none => rw [hsl] at hsv; simp at hsv
  | some v =>
    simp only [hsl, Option.isNone_some, Bool.false_eq_true, if_false]
    rw [hfilter, mapM_decode_sheet_entries]
    show (do
      let hh ← (f.headers.map (fun (p : String × List String) =>
          (p.1, headersToYVal p.2))).mapM
        (fun (p : String × YVal) => do
          let hs ← decodeHeaders p.2
          Except.ok (p.1, hs))
      Except.ok (⟨f.sheets, hh⟩ : Form)) = .ok f
    rw [mapM_decode_header_entries]
    rfl

theorem convert_sheet_ne_nil (g : Grid) (rows : List Row)
    (h : convert_sheet g = .ok rows) : g ≠ [] := by
  intro hcontra
  subst hcontra
  exact Except.noConfusion h

/-- The pointwise relation between a produced sheet entry and its header
entry that the later claims rely on. -/
def SheetHeaderRel (a : String × List Row) (b : String × List String) : Prop :=
  a.1 = b.1 ∧ (b.2 = [] → a.2 = []) ∧ ("#" ∈ b.2 → b.2.head? = some "#")

theorem forall₂_rows_ne_nil (wb : Workbook) (ss : List (String × List Row))
    (hh : List (String × List String))
    (h : List.Forall₂ (SheetHeaderInv wb) ss hh) :
    ∀ p ∈ ss, ∀ r ∈ p.2, r ≠ [] := by
  induction h with
  | nil => intro p hp; simp at hp
  | @cons a b ss' hh' hR hrest ih =>
    intro p hp r hr
    rcases List.mem_cons.mp hp with h1 | h1
    · subst h1
      obtain ⟨_, g, _, hcs, _, _⟩ := hR
      exact convert_sheet_rows_nonempty g _ hcs r hr
    · exact ih p h1 r hr

theorem read_xlsform_inv (wb : Workbook) (f : Form)
    (h : read_xlsform wb = .ok f) :
    (∀ p ∈ f.sheets, p.1 ∈ ["survey", "choices", "settings"])
    ∧ f.sheets.map Prod.fst = f.headers.map Prod.fst
    ∧ (f.sheets.map Prod.fst).Nodup
    ∧ (f.sheets.lookup "survey").isSome = true
    ∧ (∀ p ∈ f.sheets, ∀ r ∈ p.2, r ≠ [])
    ∧ List.Forall₂ SheetHeaderRel f.sheets f.headers := by
  obtain ⟨hrs, hsur⟩ := read_xlsform_ok_elim wb f h
  obtain ⟨hsub, hfst, _, hinv⟩ := readSheets_ok _ wb f.sheets f.headers hrs
  refine ⟨?_, hfst, hsub.nodup (by decide), hsur, ?_, ?_⟩
  · intro p hp
    exact hsub.subset (List.mem_map_of_mem Prod.fst hp)
  · exact forall₂_rows_ne_nil wb f.sheets f.headers hinv
  · refine hinv.imp (fun {a b} hab => ?_)
    obtain ⟨hab1, g, hwb, hcs, hb2, hcomm⟩ := hab
    refine ⟨hab1, ?_, hcomm⟩
    intro hb2nil
    have hg := convert_sheet_ne_nil g a.2 hcs
    have := convert_sheet_headers_nil g hg (by rw [← hb2]; exact hb2nil)
    rw [this] at hcs
    exact (Except.ok.inj hcs).symm

theorem forall₂_headers_ne_nil (ss : List (String × List Row))
    (hh : List (String × List String))
    (h : List.Forall₂ SheetHeaderRel ss hh)
    (hne : ∀ p ∈ ss, p.2 ≠ []) : ∀ q ∈ hh, q.2 ≠ [] := by
  induction h with
  | nil => intro q hq; simp at hq
  | @cons a b ss' hh' hR hrest ih =>
    intro q hq
    rcases List.mem_cons.mp hq with h1 | h1
    · subst h1
      intro hcontra
      exact hne a (List.mem_cons_self a ss') (hR.2.1 hcontra)
    · exact ih (fun p hp => hne p (List.mem_cons_of_mem a hp)) q h1

/-- **C1** (corrected).  For every form produced by the tabular reader in
which every present sheet has at least one row, serializing with
`write_yaml` and parsing back with `read_yaml` returns exactly the same
form — the round trip is lossless for the `survey`/`choices`/`settings`
row data (the whole form, headers included, is recovered).  The
restriction to forms without empty sheets is forced by the
counterexample: the serializer cannot represent an empty row list. -/
theorem claim_C1 (wb : Workbook) (f : Form)
    (hread : read_xlsform wb = .ok f)
    (hne : ∀ p ∈ f.sheets, p.2 ≠ []) :
    ∃ y, write_yaml f = .ok y ∧ read_yaml y = .ok f := by
  obtain ⟨hnames, hfst, _, hsur, hrows, hpair⟩ := read_xlsform_inv wb f hread
  have h1 : ∀ p ∈ f.sheets, p.2 ≠ [] ∧ ∀ r ∈ p.2, r ≠ [] :=
    fun p hp => ⟨hne p hp, hrows p hp⟩
  have h2 : f.headers ≠ [] := by
    intro hcontra
    rw [hcontra] at hfst
    have hempty : f.sheets = [] := by
      cases hsh : f.sheets with
      | nil => rfl
      | cons p tl =>
        rw [hsh] at hfst
        exact List.noConfusion hfst
    rw [hempty] at hsur
    simp [List.lookup] at hsur
  have h3 : ∀ q ∈ f.headers, q.2 ≠ [] :=
    forall₂_headers_ne_nil f.sheets f.headers hpair hne
  have hyxf : "yxf" ∉ f.sheets.map Prod.fst := by
    intro hmem
    rcases List.mem_map.mp hmem with ⟨p, hp, hpe⟩
    have hn := hnames p hp
    rw [hpe] at hn
    simp at hn
  exact ⟨formToYVal f, write_yaml_ok f h1 h2 h3,
    read_yaml_formToYVal f hyxf hsur⟩

/-- **C1 witness**: the round trip at a concrete workbook. -/
theorem claim_C1_witness :
    ∃ y, write_yaml formMinimal = .ok y ∧ read_yaml y = .ok formMinimal :=
  claim_C1 wbMinimal formMinimal rfl (by decide)

/-- **C1 counterexample**: a workbook whose `choices` sheet has a header
row but no data rows reads into a form with an empty `choices` row list,
and serializing that form fails — no round trip exists, contrary to the
unrestricted claim. -/
theorem claim_C1_counterexample :
    read_xlsform wbEmptyChoices = .ok formEmptyChoices
    ∧ errOfE (write_yaml formEmptyChoices) =
        some "strictyaml cannot serialize empty collections" :=
  ⟨rfl, rfl⟩

theorem mem_fst_of_lookup_isSome {α : Type} (l : List (String × α))
    (k : String) (h : (l.lookup k).isSome = true) : k ∈ l.map Prod.fst := by
  cases hl : l.lookup k with
  | none => rw [hl] at h; simp at h
  | some v => exact List.mem_map_of_mem Prod.fst (mem_of_lookup_eq_some l k v hl)

theorem head?_some_ne_nil {α : Type} (l : List α) (x : α)
    (h : l.head? = some x) : l ≠ [] := by
  intro hcontra
  rw [hcontra] at h
  exact Option.noConfusion h

theorem forall₂_rel_lookup (ss : List (String × List Row))
    (hh : List (String × List String))
    (h : List.Forall₂ SheetHeaderRel ss hh) (s : String) (rows : List Row)
    (hs : List String) (h1 : ss.lookup s = some rows)
    (h2 : hh.lookup s = some hs) :
    (hs = [] → rows = []) ∧ ("#" ∈ hs → hs.head? = some "#") := by
  induction h generalizing rows hs with
  | nil => simp [List.lookup] at h1
  | @cons a b ss' hh' hR hrest ih =>
    by_cases hk : a.1 = s
    · rw [List.lookup, show (s == a.1) = true from beq_iff_eq.mpr hk.symm] at h1
      rw [List.lookup, show (s == b.1) = true from
        beq_iff_eq.mpr (hR.1 ▸ hk).symm] at h2
      have e1 := Option.some.inj h1
      have e2 := Option.some.inj h2
      subst e1
      subst e2
      exact ⟨hR.2.1, hR.2.2⟩
    · rw [List.lookup, show (s == a.1) = false from
        beq_false_of_ne (Ne.symm hk)] at h1
      rw [List.lookup, show (s == b.1) = false from
        beq_false_of_ne (Ne.symm (hR.1 ▸ hk))] at h2
      exact ih rows hs h1 h2

theorem addPlaceholders_run (names : List String) (f : Form)
    (hpair : f.sheets.map Prod.fst = f.headers.map Prod.fst)
    (hhdr : ∀ s, s ∈ names → f.sheets.lookup s = some [] →
      ∃ hs, f.headers.lookup s = some hs ∧ ("#" ∈ hs → hs.head? = some "#")) :
    ∃ f', addPlaceholders names f = .ok f'
      ∧ f'.sheets.map Prod.fst = f.sheets.map Prod.fst
      ∧ f'.headers.map Prod.fst = f.headers.map Prod.fst
      ∧ (∀ s, s ∈ names → f.sheets.lookup s = some [] →
          f'.sheets.lookup s = some [[("#", "Empty " ++ s ++ " sheet")]]
          ∧ ∃ hs', f'.headers.lookup s = some hs' ∧ hs'.head? = some "#")
      ∧ (∀ s, (s ∉ names ∨ f.sheets.lookup s ≠ some []) →
          f'.sheets.lookup s = f.sheets.lookup s
          ∧ f'.headers.lookup s = f.headers.lookup s) := by
  induction names generalizing f with
  | nil =>
    refine ⟨f, rfl, rfl, rfl, ?_, ?_⟩
    · intro s hsmem
      simp at hsmem
    · intro s _
      exact ⟨rfl, rfl⟩
  | cons s₀ rest ih =>
    rw [addPlaceholders]
    cases hl0 : f.sheets.lookup s₀ with
    | none =>
      simp only [hl0]
      obtain ⟨f', hrun, hm1, hm2, hph, hpres⟩ := ih f hpair
        (fun s hsr => hhdr s (List.mem_cons_of_mem s₀ hsr))
      refine ⟨f', hrun, hm1, hm2, ?_, ?_⟩
      · intro s hsmem hse
        rcases List.mem_cons.mp hsmem with h1 | h1
        · subst h1
          rw [hl0] at hse
          exact Option.noConfusion hse
        · exact hph s h1 hse
      · intro s hcond
        refine hpres s ?_
        rcases hcond with h1 | h1
        · exact Or.inl (fun hr => h1 (List.mem_cons_of_mem s₀ hr))
        · exact Or.inr h1
    | some rows =>
      cases rows with
      | cons r rs =>
        simp only [hl0]
        obtain ⟨f', hrun, hm1, hm2, hph, hpres⟩ := ih f hpair
          (fun s hsr => hhdr s (List.mem_cons_of_mem s₀ hsr))
        refine ⟨f', hrun, hm1, hm2, ?_, ?_⟩
        · intro s hsmem hse
          rcases List.mem_cons.mp hsmem with h1 | h1
          · subst h1
            rw [hl0] at hse
            exact absurd (Option.some.inj hse) (by simp)
          · exact hph s h1 hse
        · intro s hcond
          refine hpres s ?_
          rcases hcond with h1 | h1
          · exact Or.inl (fun hr => h1 (List.mem_cons_of_mem s₀ hr))
          · exact Or.inr h1
      | nil =>
        obtain ⟨hs, hhs, hcom⟩ := hhdr s₀ (List.mem_cons_self s₀ rest) hl0
        have hs₀sheets : s₀ ∈ f.sheets.map Prod.fst :=
          mem_fst_of_lookup_isSome f.sheets s₀ (by rw [hl0]; rfl)
        have hs₀headers : s₀ ∈ f.headers.map Prod.fst :=
          mem_fst_of_lookup_isSome f.headers s₀ (by rw [hhs]; rfl)
        simp only [hl0, hhs]
        by_cases hmem : "#" ∈ hs
        · rw [if_pos (by simpa [Option.getD] using hmem)]
          have hph0 : (Form.mk (odInsert f.sheets s₀
              [[("#", "Empty " ++ s₀ ++ " sheet")]]) f.headers).sheets.lookup s₀
              = some [[("#", "Empty " ++ s₀ ++ " sheet")]] :=
            lookup_odInsert_self _ _ _
          obtain ⟨f', hrun, hm1, hm2, hph, hpres⟩ :=
            ih (Form.mk (odInsert f.sheets s₀
              [[("#", "Empty " ++ s₀ ++ " sheet")]]) f.headers)
            (by
              show (odInsert f.sheets s₀ _).map Prod.fst = f.headers.map Prod.fst
              rw [map_fst_odInsert_of_mem f.sheets s₀ _ hs₀sheets, hpair])
            (by
              intro s hsr hse
              by_cases hseq : s = s₀
              · subst hseq
                rw [hph0] at hse
                exact absurd (Option.some.inj hse) (by simp)
              · rw [show (Form.mk (odInsert f.sheets s₀
                    [[("#", "Empty " ++ s₀ ++ " sheet")]]) f.headers).sheets.lookup
                    s = f.sheets.lookup s from lookup_odInsert_ne _ _ _ _ hseq] at hse
                exact hhdr s (List.mem_cons_of_mem s₀ hsr) hse)
          refine ⟨f', hrun, ?_, hm2, ?_, ?_⟩
          · rw [hm1]
            show (odInsert f.sheets s₀ _).map Prod.fst = f.sheets.map Prod.fst
            exact map_fst_odInsert_of_mem f.sheets s₀ _ hs₀sheets
          · intro s hsmem hse
            by_cases hseq : s = s₀
            · subst hseq
              have hp := hpres s (Or.inr (by rw [hph0]; simp))
              rw [hp.1, hph0, hp.2]
              exact ⟨rfl, hs, hhs, hcom hmem⟩
            · rcases List.mem_cons.mp hsmem with h1 | h1
              · exact absurd h1 hseq
              · have hse₁ : (Form.mk (odInsert f.sheets s₀
                    [[("#", "Empty " ++ s₀ ++ " sheet")]]) f.headers).sheets.lookup
                    s = some [] := by
                  rw [show (Form.mk (odInsert f.sheets s₀
                    [[("#", "Empty " ++ s₀ ++ " sheet")]]) f.headers).sheets.lookup
                    s = f.sheets.lookup s from lookup_odInsert_ne _ _ _ _ hseq]
                  exact hse
                exact hph s h1 hse₁
          · intro s hcond
            by_cases hseq : s = s₀
            · subst hseq
              rcases hcond with h1 | h1
              · exact absurd (List.mem_cons_self s rest) h1
              · exact absurd hl0 h1
            · have hunch : (Form.mk (odInsert f.sheets s₀
                  [[("#", "Empty " ++ s₀ ++ " sheet")]]) f.headers).sheets.lookup
                  s = f.sheets.lookup s := lookup_odInsert_ne _ _ _ _ hseq
              have hp := hpres s (by
                rcases hcond with h1 | h1
                · exact Or.inl (fun hr => h1 (List.mem_cons_of_mem s₀ hr))
                · exact Or.inr (by rw [hunch]; exact h1))
              exact ⟨by rw [hp.1, hunch], hp.2⟩
        · rw [if_neg (by simpa [Option.getD] using hmem)]
          have hph0 : (Form.mk (odInsert f.sheets s₀
              [[("#", "Empty " ++ s₀ ++ " sheet")]])
              (odInsert f.headers s₀ ("#" :: hs))).sheets.lookup s₀
              = some [[("#", "Empty " ++ s₀ ++ " sheet")]] :=
            lookup_odInsert_self _ _ _
          obtain ⟨f', hrun, hm1, hm2, hph, hpres⟩ :=
            ih (Form.mk (odInsert f.sheets s₀
              [[("#", "Empty " ++ s₀ ++ " sheet")]])
              (odInsert f.headers s₀ ("#" :: hs)))
            (by
              show (odInsert f.sheets s₀ _).map Prod.fst =
                (odInsert f.headers s₀ _).map Prod.fst
              rw [map_fst_odInsert_of_mem f.sheets s₀ _ hs₀sheets,
                map_fst_odInsert_of_mem f.headers s₀ _ hs₀headers, hpair])
            (by
              intro s hsr hse
              by_cases hseq : s = s₀
              · subst hseq
                rw [hph0] at hse
                exact absurd (Option.some.inj hse) (by simp)
              · rw [show (Form.mk (odInsert f.sheets s₀
                    [[("#", "Empty " ++ s₀ ++ " sheet")]])
                    (odInsert f.headers s₀ ("#" :: hs))).sheets.lookup s =
                    f.sheets.lookup s from lookup_odInsert_ne _ _ _ _ hseq] at hse
                obtain ⟨hs₂, hhs₂, hcom₂⟩ :=
                  hhdr s (List.mem_cons_of_mem s₀ hsr) hse
                refine ⟨hs₂, ?_, hcom₂⟩
                show (odInsert f.headers s₀ ("#" :: hs)).lookup s = some hs₂
                rw [lookup_odInsert_ne _ _ _ _ hseq]
                exact hhs₂)
          refine ⟨f', hrun, ?_, ?_, ?_, ?_⟩
          · rw [hm1]
            show (odInsert f.sheets s₀ _).map Prod.fst = f.sheets.map Prod.fst
            exact map_fst_odInsert_of_mem f.sheets s₀ _ hs₀sheets
          · rw [hm2]
            show (odInsert f.headers s₀ _).map Prod.fst = f.headers.map Prod.fst
            exact map_fst_odInsert_of_mem f.headers s₀ _ hs₀headers
          · intro s hsmem hse
            by_cases hseq : s = s₀
            · subst hseq
              have hp := hpres s (Or.inr (by rw [hph0]; simp))
              rw [hp.1, hph0, hp.2]
              refine ⟨rfl, "#" :: hs, ?_, rfl⟩
              show (odInsert f.headers s ("#" :: hs)).lookup s = some ("#" :: hs)
              exact lookup_odInsert_self _ _ _
            · rcases List.mem_cons.mp hsmem with h1 | h1
              · exact absurd h1 hseq
              · have hse₁ : (Form.mk (odInsert f.sheets s₀
                    [[("#", "Empty " ++ s₀ ++ " sheet")]])
                    (odInsert f.headers s₀ ("#" :: hs))).sheets.lookup s =
                    some [] := by
                  rw [show (Form.mk (odInsert f.sheets s₀
                    [[("#", "Empty " ++ s₀ ++ " sheet")]])
                    (odInsert f.headers s₀ ("#" :: hs))).sheets.lookup s =
                    f.sheets.lookup s from lookup_odInsert_ne _ _ _ _ hseq]
                  exact hse
                exact hph s h1 hse₁
          · intro s hcond
            by_cases hseq : s = s₀
            · subst hseq
              rcases hcond with h1 | h1
              · exact absurd (List.mem_cons_self s rest) h1
              · exact absurd hl0 h1
            · have hunch1 : (Form.mk (odInsert f.sheets s₀
                  [[("#", "Empty " ++ s₀ ++ " sheet")]])
                  (odInsert f.headers s₀ ("#" :: hs))).sheets.lookup s =
                  f.sheets.lookup s := lookup_odInsert_ne _ _ _ _ hseq
              have hunch2 : (Form.mk (odInsert f.sheets s₀
                  [[("#", "Empty " ++ s₀ ++ " sheet")]])
                  (odInsert f.headers s₀ ("#" :: hs))).headers.lookup s =
                  f.headers.lookup s := lookup_odInsert_ne _ _ _ _ hseq
              have hp := hpres s (by
                rcases hcond with h1 | h1
                · exact Or.inl (fun hr => h1 (List.mem_cons_of_mem s₀ hr))
                · exact Or.inr (by rw [hunch1]; exact h1))
              exact ⟨by rw [hp.1, hunch1], by rw [hp.2, hunch2]⟩

/-- **C3** (corrected).  `write_yaml` itself fails on a form with an
empty sheet; the placeholder materialization the claim describes lives in
the conversion pipeline of `__main__.py` (`xlsform_bytes_to_yaml_string`),
modelled by `addEmptySheetPlaceholders`: for every form produced by
`read_xlsform`, that pass succeeds, replaces each empty sheet's row list
with the single `{"#": "Empty <sheet> sheet"}` placeholder row, makes
`"#"` present and first in that sheet's header list, and the resulting
form then serializes and parses back without loss. -/
theorem claim_C3 (wb : Workbook) (f : Form)
    (hread : read_xlsform wb = .ok f) :
    ∃ f', addEmptySheetPlaceholders f = .ok f'
      ∧ (∀ s, f.sheets.lookup s = some [] →
          f'.sheets.lookup s = some [[("#", "Empty " ++ s ++ " sheet")]]
          ∧ ∃ hs', f'.headers.lookup s = some hs' ∧ hs'.head? = some "#")
      ∧ ∃ y, write_yaml f' = .ok y ∧ read_yaml y = .ok f' := by
  obtain ⟨hnames, hfst, hnodup, hsur, hrows, hpair⟩ := read_xlsform_inv wb f hread
  have hmemnames : ∀ s rows, f.sheets.lookup s = some rows →
      s ∈ ["survey", "choices", "settings"] := by
    intro s rows hl
    exact hnames (s, rows) (mem_of_lookup_eq_some f.sheets s rows hl)
  have hhdr : ∀ s, s ∈ ["survey", "choices", "settings"] →
      f.sheets.lookup s = some [] →
      ∃ hs, f.headers.lookup s = some hs ∧ ("#" ∈ hs → hs.head? = some "#") := by
    intro s _ hl
    have hsh : s ∈ f.headers.map Prod.fst := by
      rw [← hfst]
      exact mem_fst_of_lookup_isSome f.sheets s (by rw [hl]; rfl)
    obtain ⟨hs, hhs⟩ := Option.isSome_iff_exists.mp
      (lookup_isSome_of_mem_fst f.headers s hsh)
    exact ⟨hs, hhs, (forall₂_rel_lookup f.sheets f.headers hpair s [] hs hl hhs).2⟩
  obtain ⟨f', hrun, hm1, hm2, hph, hpres⟩ :=
    addPlaceholders_run ["survey", "choices", "settings"] f hfst hhdr
  have hph' : ∀ s, f.sheets.lookup s = some [] →
      f'.sheets.lookup s = some [[("#", "Empty " ++ s ++ " sheet")]]
      ∧ ∃ hs', f'.headers.lookup s = some hs' ∧ hs'.head? = some "#" :=
    fun s hl => hph s (hmemnames s [] hl) hl
  refine ⟨f', hrun, hph', ?_⟩
  -- the placeholder-completed form serializes and parses back
  have hnodup' : (f'.sheets.map Prod.fst).Nodup := by rw [hm1]; exact hnodup
  have hnodup'h : (f'.headers.map Prod.fst).Nodup := by
    rw [hm2, ← hfst]; exact hnodup
  have h1 : ∀ p ∈ f'.sheets, p.2 ≠ [] ∧ ∀ r ∈ p.2, r ≠ [] := by
    intro p hp
    have hlk' : f'.sheets.lookup p.1 = some p.2 :=
      lookup_eq_some_of_mem_nodup f'.sheets p hnodup' hp
    have hmem0 : p.1 ∈ f.sheets.map Prod.fst := by
      rw [← hm1]
      exact List.mem_map_of_mem Prod.fst hp
    obtain ⟨rows₀, hl0⟩ := Option.isSome_iff_exists.mp
      (lookup_isSome_of_mem_fst f.sheets p.1 hmem0)
    cases rows₀ with
    | nil =>
      have := (hph' p.1 hl0).1
      rw [hlk'] at this
      have he := Option.some.inj this
      rw [he]
      refine ⟨by simp, ?_⟩
      intro r hr
      rcases List.mem_cons.mp hr with h1 | h1
      · rw [h1]; simp
      · simp at h1
    | cons r rs =>
      have hp2 := hpres p.1 (Or.inr (by rw [hl0]; simp))
      rw [hlk', hl0] at hp2
      have he := Option.some.inj hp2.1
      rw [he]
      exact ⟨by simp, hrows (p.1, r :: rs)
        (mem_of_lookup_eq_some f.sheets p.1 (r :: rs) hl0)⟩
  have hsurmem : "survey" ∈ f.sheets.map Prod.fst :=
    mem_fst_of_lookup_isSome f.sheets "survey" hsur
  have h2 : f'.headers ≠ [] := by
    intro hcontra
    have : "survey" ∈ f'.headers.map Prod.fst := by
      rw [hm2, ← hfst]
      exact hsurmem
    rw [hcontra] at this
    simp at this
  have h3 : ∀ q ∈ f'.headers, q.2 ≠ [] := by
    intro q hq
    have hlk' : f'.headers.lookup q.1 = some q.2 :=
      lookup_eq_some_of_mem_nodup f'.headers q hnodup'h hq
    have hmem0 : q.1 ∈ f.sheets.map Prod.fst := by
      rw [hfst, ← hm2]
      exact List.mem_map_of_mem Prod.fst hq
    obtain ⟨rows₀, hl0⟩ := Option.isSome_iff_exists.mp
      (lookup_isSome_of_mem_fst f.sheets q.1 hmem0)
    cases rows₀ with
    | nil =>
      obtain ⟨hs', hhs', hhead⟩ := (hph' q.1 hl0).2
      rw [hlk'] at hhs'
      rw [Option.some.inj hhs']
      exact head?_some_ne_nil hs' "#" hhead
    | cons r rs =>
      have hp2 := hpres q.1 (Or.inr (by rw [hl0]; simp))
      obtain ⟨hs₀, hhs₀⟩ := Option.isSome_iff_exists.mp
        (lookup_isSome_of_mem_fst f.headers q.1 (by rw [← hfst]; exact hmem0))
      rw [hlk', hhs₀] at hp2
      have he := Option.some.inj hp2.2
      rw [he]
      intro hcontra
      have := (forall₂_rel_lookup f.sheets f.headers hpair q.1 (r :: rs) hs₀
        hl0 hhs₀).1 hcontra
      exact List.noConfusion this
  have hyxf : "yxf" ∉ f'.sheets.map Prod.fst := by
    rw [hm1]
    intro hmem
    rcases List.mem_map.mp hmem with ⟨p, hp, hpe⟩
    have hn := hnames p hp
    rw [hpe] at hn
    simp at hn
  have hsur' : (f'.sheets.lookup "survey").isSome = true := by
    have : "survey" ∈ f'.sheets.map Prod.fst := by
      rw [hm1]; exact hsurmem
    exact lookup_isSome_of_mem_fst f'.sheets "survey" this
  exact ⟨formToYVal f', write_yaml_ok f' h1 h2 h3,
    read_yaml_formToYVal f' hyxf hsur'⟩

/-- **C3 witness**: the amended claim at a concrete workbook whose
`choices` sheet is empty. -/
theorem claim_C3_witness :
    ∃ f', addEmptySheetPlaceholders formEmptyChoices = .ok f'
      ∧ (∀ s, formEmptyChoices.sheets.lookup s = some [] →
          f'.sheets.lookup s = some [[("#", "Empty " ++ s ++ " sheet")]]
          ∧ ∃ hs', f'.headers.lookup s = some hs' ∧ hs'.head? = some "#")
      ∧ ∃ y, write_yaml f' = .ok y ∧ read_yaml y = .ok f' :=
  claim_C3 wbEmptyChoices formEmptyChoices rfl

/-- **C3 counterexample**: on a form whose `survey` sheet has an empty
row list, `write_yaml` does not materialize any placeholder — it fails
outright, so its output is not always well-formed as the claim states. -/
theorem claim_C3_counterexample :
    isOkE (write_yaml formEmptySurvey) = false
    ∧ errOfE (write_yaml formEmptySurvey) =
        some "strictyaml cannot serialize empty collections" :=
  ⟨rfl, rfl⟩

end Yxf
